import Mathlib

/-!
# temp_filter: a verification development

Shallow embedding of `temp_filter.go` (the MQTT to InfluxDB ingestion service) and of
`display/display.go` (`ToF`), followed by theorems about the embedded definitions.

Go values are embedded as follows.

* `[]byte` and `string` are `List UInt8` (`Bytes`); text produced by `encoding/json` for the
  string fields of a struct is always valid UTF-8 and is kept as a Lean `String`.
* `int` is `Int`; the 64-bit range is enforced where `encoding/json` enforces it.
* `float32` and `float64` are sign, odd significand and binary exponent (`Flt`), with
  infinities and NaN; arithmetic rounds to nearest, ties to even.
* `time.Time` is a civil UTC date and time (`Time`), which is what `time.Parse` returns for a
  layout without a zone.
* The statements of `run` that talk to the broker and to the store are recorded as a list of
  calls; the receive loop is a step function on an explicit loop state.
-/

namespace TempFilter

/-! ## Bytes -/

/-- A Go `[]byte` (and a Go `string`, which is a byte sequence). -/
abbrev Bytes := List UInt8

/-- The bytes of a string literal (its UTF-8 encoding), for writing payloads down. -/
def utf8 (s : String) : Bytes := s.toUTF8.data.toList

/-- Go `time.isDigit` on the first byte: `'0' <= c && c <= '9'`. -/
def isDigit (b : UInt8) : Bool := 48 ≤ b && b ≤ 57

/-- The value of a decimal digit byte. -/
def digitVal (b : UInt8) : Nat := b.toNat - 48

/-- The ASCII byte for a digit `0..9`. -/
def digitByte (d : Nat) : UInt8 := UInt8.ofNat (48 + d % 10)

/-- Go `strings.Trim(s, "\"")`: drop every leading and every trailing `"` byte. -/
def trimQuotes (s : Bytes) : Bytes :=
  ((s.dropWhile (fun b => b == 34)).reverse.dropWhile (fun b => b == 34)).reverse

/-! ## time.Time, time.Parse and Time.Format for the layout `2006-01-02 15:04:05` -/

/-- A `time.Time` in UTC, as civil fields. -/
structure Time where
  year : Int
  month : Nat
  day : Nat
  hour : Nat
  min : Nat
  sec : Nat
  nsec : Nat
deriving DecidableEq, Repr

/-- The zero value `time.Time{}`: January 1, year 1, 00:00:00.000000000 UTC. -/
def Time.zero : Time := ⟨1, 1, 1, 0, 0, 0, 0⟩

/-- Go `time.isLeap`. -/
def isLeap (year : Nat) : Bool := year % 4 == 0 && (year % 100 != 0 || year % 400 == 0)

/-- Go `time.daysIn`. -/
def daysIn (month year : Nat) : Nat :=
  if month == 2 then (if isLeap year then 29 else 28)
  else if month == 4 || month == 6 || month == 9 || month == 11 then 30
  else 31

/-- Go `time.getnum`: one or two decimal digits; with `fixed` exactly two. -/
def getnum (s : Bytes) (fixed : Bool) : Option (Nat × Bytes) :=
  match s with
  | [] => none
  | [a] => if !isDigit a then none else if fixed then none else some (digitVal a, [])
  | a :: b :: rest =>
    if !isDigit a then none
    else if !isDigit b then (if fixed then none else some (digitVal a, b :: rest))
    else some (digitVal a * 10 + digitVal b, rest)

/-- The `stdLongYear` case of `time.Parse`: exactly four digits. -/
def getYear (s : Bytes) : Option (Nat × Bytes) :=
  match s with
  | a :: b :: c :: d :: rest =>
    if isDigit a && isDigit b && isDigit c && isDigit d then
      some (digitVal a * 1000 + digitVal b * 100 + digitVal c * 10 + digitVal d, rest)
    else none
  | _ => none

/-- Go `time.skip` for a one-byte literal prefix other than a space. -/
def skipByte (c : UInt8) (value : Bytes) : Option Bytes :=
  match value with
  | [] => none
  | v :: rest => if v == c then some rest else none

/-- Go `time.skip` for the prefix `" "`: an empty value passes, otherwise the value must start
with a space and all its leading spaces are cut. -/
def skipSpace (value : Bytes) : Option Bytes :=
  match value with
  | [] => some []
  | v :: _ => if v != 32 then none else some (value.dropWhile (fun b => b == 32))

/-- Value of a digit string, most significant first. -/
def digitsVal (ds : Bytes) : Nat := ds.foldl (fun acc b => acc * 10 + digitVal b) 0

/-- The fractional second that `time.Parse` accepts after the seconds although the layout has
none: `.` or `,` and digits, of which `parseNanoseconds` keeps the first nine. Returns the
nanoseconds and the rest of the value. -/
def fracSecond (value : Bytes) : Nat × Bytes :=
  match value with
  | p :: d :: rest =>
    if (p == 46 || p == 44) && isDigit d then
      let ds := (d :: rest).takeWhile isDigit
      let kept := ds.take 9
      (digitsVal kept * 10 ^ (9 - kept.length), (d :: rest).dropWhile isDigit)
    else (0, value)
  | _ => (0, value)

/-- Go `time.Parse(formatTime, s)` with `formatTime = "2006-01-02 15:04:05"`; `none` is a
non-nil error. The hour is `stdHour` (one or two digits); month, day, minute and second are
the zero-padded two-digit forms. -/
def timeParse (s : Bytes) : Option Time := do
  let (year, v) ← getYear s
  let v ← skipByte 45 v
  let (month, v) ← getnum v true
  if month == 0 || 12 < month then none
  let v ← skipByte 45 v
  let (day, v) ← getnum v true
  let v ← skipSpace v
  let (hour, v) ← getnum v false
  if 24 ≤ hour then none
  let v ← skipByte 58 v
  let (min, v) ← getnum v true
  if 60 ≤ min then none
  let v ← skipByte 58 v
  let (sec, v) ← getnum v true
  if 60 ≤ sec then none
  let (nsec, v) := fracSecond v
  if !v.isEmpty then none
  if day < 1 || daysIn month year < day then none
  some ⟨year, month, day, hour, min, sec, nsec⟩

/-- Decimal digits of `n`, most significant first, at least one digit (`fuel` bounds the
number of digits). -/
def natDigits : Nat → Nat → Bytes
  | 0, _ => []
  | fuel + 1, n => if n < 10 then [digitByte n] else natDigits fuel (n / 10) ++ [digitByte n]

/-- Go `time.appendInt(b, x, width)`: sign, then the digits zero-padded to `width`. -/
def appendInt (x : Int) (width : Nat) : Bytes :=
  let u := x.natAbs
  let ds := natDigits (u + 1) u
  (if x < 0 then [45] else []) ++ List.replicate (width - ds.length) 48 ++ ds

/-- Go `t.Format(formatTime)`. -/
def timeFormat (t : Time) : Bytes :=
  appendInt t.year 4 ++ [45] ++ appendInt t.month 2 ++ [45] ++ appendInt t.day 2 ++ [32] ++
    appendInt t.hour 2 ++ [58] ++ appendInt t.min 2 ++ [58] ++ appendInt t.sec 2

/-! ## CustomTime (temp_filter.go, lines 18 to 37) -/

/-- `const formatTime = "2006-01-02 15:04:05"`. The layout enters `timeParse` and `timeFormat`
through the order, the widths and the separators of the fields. -/
def formatTime : Bytes := utf8 "2006-01-02 15:04:05"

/-- Go `type CustomTime time.Time`. -/
abbrev CustomTime := Time

/-- `func (ct CustomTime) UnmarshalJSON(b []byte) (err error)`.
The receiver is a value: the method gets a copy of the caller's `CustomTime`, the assignment
`ct = CustomTime(t)` changes that copy, and the only thing that leaves the method is `err`
(`false` for nil, `true` for the error of `time.Parse`). -/
def CustomTime.UnmarshalJSON (ct : CustomTime) (b : Bytes) : Bool :=
  let s := trimQuotes b
  match timeParse s with
  | some t =>
    let _ct : CustomTime := t
    false
  | none =>
    let _ct : CustomTime := Time.zero
    true

/-- `func (ct CustomTime) String() string`. -/
def CustomTime.String (ct : CustomTime) : Bytes := timeFormat ct

/-- `func (ct CustomTime) MarshalJSON() ([]byte, error)`: the bytes of `String()`, no error. -/
def CustomTime.MarshalJSON (ct : CustomTime) : Bytes := CustomTime.String ct

/-! ## Floating point (IEEE 754 binary32 and binary64, round to nearest, ties to even) -/

/-- A `float32` or `float64` value. `finite neg mant exp` is `(-1)^neg * mant * 2^exp`, kept
normalised: `mant` is odd, or `mant = 0` and `exp = 0` (a signed zero). -/
inductive Flt where
  | finite (neg : Bool) (mant : Nat) (exp : Int)
  | inf (neg : Bool)
  | nan
deriving DecidableEq, Repr

/-- Number of binary digits of `n` (`fuel` bounds the count). -/
def bitLenAux : Nat → Nat → Nat
  | 0, _ => 0
  | fuel + 1, n => if n == 0 then 0 else bitLenAux fuel (n / 2) + 1

/-- Number of binary digits of `n`: `0` for `0`, otherwise `floor (log2 n) + 1`. -/
def bitLen (n : Nat) : Nat := bitLenAux n n

/-- Strip the trailing zero bits of a significand into the exponent. -/
def normAux : Nat → Nat → Int → Nat × Int
  | 0, m, e => (m, e)
  | fuel + 1, m, e => if m % 2 == 0 && m != 0 then normAux fuel (m / 2) (e + 1) else (m, e)

/-- The normalised finite value `(-1)^neg * m * 2^e`. -/
def Flt.mk (neg : Bool) (m : Nat) (e : Int) : Flt :=
  if m == 0 then .finite neg 0 0
  else let (m1, e1) := normAux (bitLen m) m e
    .finite neg m1 e1

/-- Round the non-negative rational `n / d` (`d > 0`), with sign `neg`, to the format with
`p` significand bits, least normal exponent `emin` and greatest exponent `emax`: the nearest
representable value, ties to the even significand, an infinity when the rounded value
reaches `2^(emax+1)`. Subnormals are spaced `2^(emin-p+1)`. -/
def roundRat (p : Nat) (emin emax : Int) (neg : Bool) (n d : Nat) : Flt :=
  if n == 0 then .finite neg 0 0
  else
    -- `e = floor (log2 (n / d))` is `k` or `k - 1`
    let k : Int := (bitLen n : Int) - (bitLen d : Int)
    let geK : Bool := if 0 ≤ k then d * 2 ^ k.toNat ≤ n else d ≤ n * 2 ^ (-k).toNat
    let e : Int := if geK then k else k - 1
    -- exponent of the last kept bit
    let qe : Int := max (e - ((p : Int) - 1)) (emin - ((p : Int) - 1))
    let num : Nat := if 0 ≤ qe then n else n * 2 ^ (-qe).toNat
    let den : Nat := if 0 ≤ qe then d * 2 ^ qe.toNat else d
    let q := num / den
    let r := num % den
    let m := if den < 2 * r || (2 * r == den && q % 2 == 1) then q + 1 else q
    -- `m * 2^qe` reaches `2^(emax+1)` exactly when `floor (log2 m) + qe` reaches `emax + 1`
    if emax + 2 ≤ (bitLen m : Int) + qe then .inf neg
    else Flt.mk neg m qe

/-- The exact value `mant * 2^exp` as a fraction `(n, d)`. -/
def dyadicFrac (mant : Nat) (exp : Int) : Nat × Nat :=
  if 0 ≤ exp then (mant * 2 ^ exp.toNat, 1) else (mant, 2 ^ (-exp).toNat)

/-- Round the exact value `mant * 2^exp` to float64. -/
def round64 (neg : Bool) (mant : Nat) (exp : Int) : Flt :=
  let (n, d) := dyadicFrac mant exp
  roundRat 53 (-1022) 1023 neg n d

/-- The float64 nearest to the decimal constant `n / d` (how Go converts an untyped constant). -/
def f64 (n d : Nat) : Flt := roundRat 53 (-1022) 1023 false n d

/-- The float32 nearest to `n / d`, with sign `neg`. -/
def f32 (neg : Bool) (n d : Nat) : Flt := roundRat 24 (-126) 127 neg n d

/-- Float64 multiplication `x * y`. -/
def Flt.mul64 : Flt → Flt → Flt
  | .nan, _ => .nan
  | _, .nan => .nan
  | .inf a, .inf b => .inf (a != b)
  | .inf a, .finite b m _ => if m == 0 then .nan else .inf (a != b)
  | .finite a m _, .inf b => if m == 0 then .nan else .inf (a != b)
  | .finite a m e, .finite b m2 e2 => round64 (a != b) (m * m2) (e + e2)

/-- The exact sum of two finite values, rounded to float64. A zero sum is `-0` only when both
operands are negative (both are then `-0`). -/
def addFinite64 (a : Bool) (m : Nat) (e : Int) (b : Bool) (m2 : Nat) (e2 : Int) : Flt :=
  let e0 := min e e2
  let x : Int := (if a then -1 else 1) * ((m * 2 ^ (e - e0).toNat : Nat) : Int)
  let y : Int := (if b then -1 else 1) * ((m2 * 2 ^ (e2 - e0).toNat : Nat) : Int)
  let s := x + y
  if s == 0 then .finite (a && b) 0 0 else round64 (decide (s < 0)) s.natAbs e0

/-- Float64 addition `x + y`. -/
def Flt.add64 : Flt → Flt → Flt
  | .nan, _ => .nan
  | _, .nan => .nan
  | .inf a, .inf b => if a == b then .inf a else .nan
  | .inf a, .finite _ _ _ => .inf a
  | .finite _ _ _, .inf b => .inf b
  | .finite a m e, .finite b m2 e2 => addFinite64 a m e b m2 e2

/-- Fused multiply-add `x * y + z` in float64: one rounding, of the exact result. -/
def Flt.fma64 : Flt → Flt → Flt → Flt
  | .finite a m e, .finite b m2 e2, .finite c m3 e3 =>
    if m * m2 == 0 then addFinite64 (a != b) 0 0 c m3 e3
    else addFinite64 (a != b) (m * m2) (e + e2) c m3 e3
  | x, y, z => Flt.add64 (Flt.mul64 x y) z

/-! ## display/display.go: ToF -/

/-- `func ToF(c float64) float64 { return (c * 1.8) + 32 }`, the product rounded before the
sum. -/
def ToF (c : Flt) : Flt := Flt.add64 (Flt.mul64 c (f64 18 10)) (f64 32 1)

/-- `ToF` as compiled on a target where Go fuses `x*y + z` into one instruction (the language
allows it: no explicit conversion separates the product from the sum). -/
def ToF_fused (c : Flt) : Flt := Flt.fma64 c (f64 18 10) (f64 32 1)

/-! ## encoding/json: the scanner (what `checkValid` accepts) -/

/-- JSON whitespace: space, tab, carriage return, line feed. -/
def isSpace (b : UInt8) : Bool := b == 32 || b == 9 || b == 13 || b == 10

/-- Drop leading JSON whitespace. -/
def skipWS (s : Bytes) : Bytes := s.dropWhile isSpace

/-- A hexadecimal digit byte. -/
def isHex (b : UInt8) : Bool :=
  isDigit b || (97 ≤ b && b ≤ 102) || (65 ≤ b && b ≤ 70)

/-- The byte after a backslash in a one-letter escape: one of `b f n r t \ / "`. -/
def isSimpleEscape (b : UInt8) : Bool :=
  b == 98 || b == 102 || b == 110 || b == 114 || b == 116 || b == 92 || b == 47 || b == 34

/-- Scan a string literal after its opening quote; the result is what follows the closing
quote. Bytes below `0x20` are refused, an escape is a one-letter escape or `u` and four
hexadecimal digits. -/
def scanString : Bytes → Option Bytes
  | [] => none
  | c :: rest =>
    if c == 34 then some rest
    else if c < 32 then none
    else if c != 92 then scanString rest
    else
      match rest with
      | [] => none
      | e :: rest2 =>
        if isSimpleEscape e then scanString rest2
        else if e != 117 then none
        else
          match rest2 with
          | h1 :: h2 :: h3 :: h4 :: rest3 =>
            if isHex h1 && isHex h2 && isHex h3 && isHex h4 then scanString rest3 else none
          | _ => none

/-- The optional minus sign of a number literal. -/
def scanSign (s : Bytes) : Bytes :=
  match s with
  | c :: r => if c == 45 then r else s
  | [] => s

/-- The integer part of a number literal: `0`, or a digit `1..9` and further digits. -/
def scanIntPart (s : Bytes) : Option Bytes :=
  match s with
  | c :: r =>
    if c == 48 then some r
    else if 49 ≤ c && c ≤ 57 then some (r.dropWhile isDigit)
    else none
  | [] => none

/-- The optional fraction of a number literal: a period and at least one digit. -/
def scanFrac (s : Bytes) : Option Bytes :=
  match s with
  | c :: r =>
    if c != 46 then some s
    else match r with
      | d :: r2 => if isDigit d then some (r2.dropWhile isDigit) else none
      | [] => none
  | [] => some s

/-- The optional exponent of a number literal: `e` or `E`, an optional sign, at least one
digit. -/
def scanExp (s : Bytes) : Option Bytes :=
  match s with
  | c :: r =>
    if c != 101 && c != 69 then some s
    else
      match (match r with
        | sg :: r2 => if sg == 43 || sg == 45 then r2 else r
        | [] => r) with
      | d :: r3 => if isDigit d then some (r3.dropWhile isDigit) else none
      | [] => none
  | [] => some s

/-- Scan a number literal: `-? (0 | [1-9][0-9]*) (. [0-9]+)? ([eE] [+-]? [0-9]+)?`; the result
is what follows it. -/
def scanNumber (s : Bytes) : Option Bytes :=
  (scanIntPart (scanSign s)).bind (fun s1 => (scanFrac s1).bind scanExp)

/-- Strip the literal `lit` from the front of `s`. -/
def stripPrefix (lit s : Bytes) : Option Bytes :=
  match lit, s with
  | [], s => some s
  | _ :: _, [] => none
  | l :: lit, c :: s => if l == c then stripPrefix lit s else none

/-- Go `maxNestingDepth` of the scanner. -/
def maxNestingDepth : Nat := 10000

mutual
/-- Scan one JSON value at the front of `s` (whitespace already skipped); the result is what
follows the value. `depth` counts the enclosing objects and arrays; `fuel` bounds the
recursion and `2 * s.length + 2` is enough. -/
def scanValue : Nat → Nat → Bytes → Option Bytes
  | 0, _, _ => none
  | fuel + 1, depth, s =>
    match s with
    | [] => none
    | c :: rest =>
      if c == 123 then
        if maxNestingDepth < depth + 1 then none
        else match skipWS rest with
          | [] => none
          | c2 :: rest2 =>
            if c2 == 125 then some rest2 else scanMembers fuel (depth + 1) (c2 :: rest2)
      else if c == 91 then
        if maxNestingDepth < depth + 1 then none
        else match skipWS rest with
          | [] => none
          | c2 :: rest2 =>
            if c2 == 93 then some rest2 else scanElems fuel (depth + 1) (c2 :: rest2)
      else if c == 34 then scanString rest
      else if c == 45 || isDigit c then scanNumber s
      else if c == 116 then stripPrefix [114, 117, 101] rest
      else if c == 102 then stripPrefix [97, 108, 115, 101] rest
      else if c == 110 then stripPrefix [117, 108, 108] rest
      else none
/-- Scan the members of an object from the opening quote of a key to the closing brace. -/
def scanMembers : Nat → Nat → Bytes → Option Bytes
  | 0, _, _ => none
  | fuel + 1, depth, s =>
    match s with
    | [] => none
    | q :: rest =>
      if q != 34 then none
      else match scanString rest with
        | none => none
        | some r =>
          match skipWS r with
          | [] => none
          | colon :: r2 =>
            if colon != 58 then none
            else match scanValue fuel depth (skipWS r2) with
              | none => none
              | some r3 =>
                match skipWS r3 with
                | [] => none
                | d :: r4 =>
                  if d == 44 then scanMembers fuel depth (skipWS r4)
                  else if d == 125 then some r4
                  else none
/-- Scan the elements of an array from its first element to the closing bracket. -/
def scanElems : Nat → Nat → Bytes → Option Bytes
  | 0, _, _ => none
  | fuel + 1, depth, s =>
    match scanValue fuel depth s with
    | none => none
    | some r =>
      match skipWS r with
      | [] => none
      | d :: r2 =>
        if d == 44 then scanElems fuel depth (skipWS r2)
        else if d == 93 then some r2
        else none
end

/-- Fuel for scanning `s`. -/
def scanFuel (s : Bytes) : Nat := 2 * s.length + 2

/-- Go `json.checkValid`: the whole input is one JSON value between optional whitespace. -/
def checkValid (data : Bytes) : Bool :=
  match scanValue (scanFuel data) 0 (skipWS data) with
  | none => false
  | some rest => (skipWS rest).isEmpty

/-! ## encoding/json: unquoting a string literal -/

/-- The Unicode replacement character `U+FFFD`. -/
def runeError : Nat := 0xFFFD

/-- A continuation byte `10xxxxxx`. -/
def isCont (b : UInt8) : Bool := 128 ≤ b && b ≤ 191

/-- Go `utf8.DecodeRune` on a non-empty input whose first byte is `b0`: the rune and the
number of bytes it takes. A malformed sequence (a stray or missing continuation byte, an
overlong form, a surrogate, a value above `U+10FFFF`) gives `U+FFFD` and width 1. -/
def decodeRune (b0 : UInt8) (rest : Bytes) : Nat × Nat :=
  let x0 := b0.toNat
  if b0 < 128 then (x0, 1)
  else if 194 ≤ b0 && b0 ≤ 223 then
    match rest with
    | b1 :: _ => if isCont b1 then ((x0 - 192) * 64 + (b1.toNat - 128), 2) else (runeError, 1)
    | _ => (runeError, 1)
  else if 224 ≤ b0 && b0 ≤ 239 then
    match rest with
    | b1 :: b2 :: _ =>
      let lo : UInt8 := if b0 == 224 then 160 else 128
      let hi : UInt8 := if b0 == 237 then 159 else 191
      if lo ≤ b1 && b1 ≤ hi && isCont b2 then
        ((x0 - 224) * 4096 + (b1.toNat - 128) * 64 + (b2.toNat - 128), 3)
      else (runeError, 1)
    | _ => (runeError, 1)
  else if 240 ≤ b0 && b0 ≤ 244 then
    match rest with
    | b1 :: b2 :: b3 :: _ =>
      let lo : UInt8 := if b0 == 240 then 144 else 128
      let hi : UInt8 := if b0 == 244 then 143 else 191
      if lo ≤ b1 && b1 ≤ hi && isCont b2 && isCont b3 then
        ((x0 - 240) * 262144 + (b1.toNat - 128) * 4096 + (b2.toNat - 128) * 64
          + (b3.toNat - 128), 4)
      else (runeError, 1)
    | _ => (runeError, 1)
  else (runeError, 1)

/-- Value of a hexadecimal digit byte. -/
def hexVal (b : UInt8) : Nat :=
  if isDigit b then b.toNat - 48
  else if 97 ≤ b && b ≤ 102 then b.toNat - 87
  else b.toNat - 55

/-- Go `json.getu4`: the value of `\uXXXX` at the front of `s`, if `s` starts with one. -/
def getu4 (s : Bytes) : Option Nat :=
  match s with
  | bs :: u :: h1 :: h2 :: h3 :: h4 :: _ =>
    if bs == 92 && u == 117 && isHex h1 && isHex h2 && isHex h3 && isHex h4 then
      some (hexVal h1 * 4096 + hexVal h2 * 256 + hexVal h3 * 16 + hexVal h4)
    else none
  | _ => none

/-- The byte written for a one-letter escape. -/
def escapeRune (e : UInt8) : Nat :=
  if e == 98 then 8 else if e == 102 then 12 else if e == 110 then 10
  else if e == 114 then 13 else if e == 116 then 9 else e.toNat

/-- Go `json.unquoteBytes` on the bytes between the quotes of a scanned string literal: the
runes of the resulting (always well-formed UTF-8) Go string. `\uXXXX` escapes are decoded, a
high surrogate followed by a low surrogate escape is one rune, any other surrogate is
`U+FFFD`, and malformed UTF-8 is replaced byte by byte with `U+FFFD`. -/
def unquoteAux : Nat → Bytes → Option (List Nat)
  | 0, s => if s.isEmpty then some [] else none
  | fuel + 1, s =>
    match s with
    | [] => some []
    | c :: rest =>
      if c == 92 then
        match rest with
        | [] => none
        | e :: rest2 =>
          if e == 117 then
            match getu4 s with
            | none => none
            | some rr =>
              let after := rest2.drop 4
              if 0xD800 ≤ rr && rr < 0xE000 then
                match getu4 after with
                | some rr1 =>
                  if rr < 0xDC00 && 0xDC00 ≤ rr1 && rr1 < 0xE000 then
                    (unquoteAux fuel (after.drop 6)).map
                      (fun t => ((rr - 0xD800) * 1024 + (rr1 - 0xDC00) + 0x10000) :: t)
                  else (unquoteAux fuel after).map (fun t => runeError :: t)
                | none => (unquoteAux fuel after).map (fun t => runeError :: t)
              else (unquoteAux fuel after).map (fun t => rr :: t)
          else if isSimpleEscape e || e == 39 then
            (unquoteAux fuel rest2).map (fun t => escapeRune e :: t)
          else none
      else if c == 34 || c < 32 then none
      else
        let (r, size) := decodeRune c rest
        (unquoteAux fuel (s.drop size)).map (fun t => r :: t)

/-- The Go string with the given runes. -/
def runesToString (rs : List Nat) : String := String.mk (rs.map Char.ofNat)

/-- Go `json.unquote` on the bytes between the quotes. -/
def unquote (content : Bytes) : Option String :=
  (unquoteAux content.length content).map runesToString

/-- The bytes of `s` consumed by a scan that left `rest`. -/
def consumed (s rest : Bytes) : Bytes := s.take (s.length - rest.length)

/-- The bytes between the quotes of a string literal (first and last byte dropped). -/
def unwrap (lit : Bytes) : Bytes := (lit.drop 1).take (lit.length - 2)

/-! ## strconv.ParseInt and strconv.ParseFloat on a JSON number literal -/

/-- Go `strconv.ParseInt(s, 10, 64)`: an optional sign and decimal digits only, the value in
the int64 range; `none` is an error. -/
def parseInt (s : Bytes) : Option Int :=
  let neg := s.head? == some 45
  let ds := if neg || s.head? == some 43 then s.drop 1 else s
  if ds.isEmpty || !ds.all isDigit then none
  else
    let n := digitsVal ds
    if neg then (if n ≤ 9223372036854775808 then some (-(n : Int)) else none)
    else (if n < 9223372036854775808 then some (n : Int) else none)

/-- Go `strconv.ParseFloat(s, 32)` on a JSON number literal: the float32 nearest to the decimal
value (ties to even); `none` is the range error of a value that rounds to an infinity. -/
def parseFloat32 (s : Bytes) : Option Flt :=
  let neg := s.head? == some 45
  let s1 := if neg then s.drop 1 else s
  let ip := s1.takeWhile isDigit
  let s2 := s1.dropWhile isDigit
  let fp := if s2.head? == some 46 then (s2.drop 1).takeWhile isDigit else []
  let s3 := if s2.head? == some 46 then (s2.drop 1).dropWhile isDigit else s2
  let s4 := s3.drop 1
  let eneg := s4.head? == some 45
  let ed := if eneg || s4.head? == some 43 then s4.drop 1 else s4
  let ex : Int := if s3.isEmpty then 0 else if eneg then -(digitsVal ed : Int) else digitsVal ed
  let mant := digitsVal (ip ++ fp)
  let scale : Int := ex - fp.length
  let v := if 0 ≤ scale then f32 neg (mant * 10 ^ scale.toNat) 1
    else f32 neg mant (10 ^ (-scale).toNat)
  match v with
  | .finite _ _ _ => some v
  | _ => none

/-! ## AcuriteMessage (temp_filter.go, lines 46 to 55) and json.Unmarshal into it -/

/-- `type AcuriteMessage struct`. -/
structure AcuriteMessage where
  Time : CustomTime
  Model : String
  Id : Int
  Channel : String
  Battery_ok : Int
  Temperature_C : Flt
  Humidity : Flt
  Mic : String
deriving DecidableEq, Repr

/-- The zero value of `var message AcuriteMessage`. -/
def AcuriteMessage.zero : AcuriteMessage :=
  ⟨Time.zero, "", 0, "", 0, .finite false 0 0, .finite false 0 0, ""⟩

/-- The fields of `AcuriteMessage`, in declaration order. -/
inductive Field where
  | Time | Model | Id | Channel | Battery_ok | Temperature_C | Humidity | Mic
deriving DecidableEq, Repr

/-- The Go name of a field; none has a `json` tag, so this is also its JSON name. -/
def Field.name : Field → String
  | .Time => "Time"
  | .Model => "Model"
  | .Id => "Id"
  | .Channel => "Channel"
  | .Battery_ok => "Battery_ok"
  | .Temperature_C => "Temperature_C"
  | .Humidity => "Humidity"
  | .Mic => "Mic"

/-- All fields, in declaration order. -/
def allFields : List Field :=
  [.Time, .Model, .Id, .Channel, .Battery_ok, .Temperature_C, .Humidity, .Mic]

/-- Case folding of `encoding/json` as far as it can reach an ASCII name: ASCII letters fold to
upper case, the Kelvin sign `U+212A` to `K` and the long s `U+017F` to `S`. Every other rune
folds to a rune outside ASCII and is left as it is. -/
def foldRune (c : Char) : Nat :=
  let n := c.toNat
  if 97 ≤ n && n ≤ 122 then n - 32
  else if n == 0x212A then 75
  else if n == 0x017F then 83
  else n

/-- The folded name of a key or of a field. -/
def foldName (s : String) : List Nat := s.toList.map foldRune

/-- The field an object key selects: `encoding/json` takes the field with exactly this name
and otherwise the one with the same folded name. No two fields of `AcuriteMessage` share a
folded name, so the folded match decides. -/
def findField (key : String) : Option Field :=
  allFields.find? (fun f => foldName f.name == foldName key)

/-- The kind of a scanned JSON value, read off its first byte as `literalStore` does. -/
inductive Kind where
  | string | object | array | bool | null | number
deriving DecidableEq, Repr

/-- The kind of the value whose text is `raw`. -/
def kindOf (raw : Bytes) : Kind :=
  match raw with
  | [] => .number
  | c :: _ =>
    if c == 34 then .string
    else if c == 123 then .object
    else if c == 91 then .array
    else if c == 116 || c == 102 then .bool
    else if c == 110 then .null
    else .number

/-- Store a JSON value into a `string` field. The result is the new struct and whether an
`UnmarshalTypeError` was saved. A null leaves the field alone. -/
def storeString (msg : AcuriteMessage) (set : AcuriteMessage → String → AcuriteMessage)
    (raw : Bytes) : AcuriteMessage × Bool :=
  match kindOf raw with
  | .null => (msg, false)
  | .string =>
    match unquote (unwrap raw) with
    | some str => (set msg str, false)
    | none => (msg, true)
  | _ => (msg, true)

/-- Store a JSON value into an `int` field (64 bits): a number that `strconv.ParseInt`
accepts; anything else but null saves an `UnmarshalTypeError`. -/
def storeInt (msg : AcuriteMessage) (set : AcuriteMessage → Int → AcuriteMessage)
    (raw : Bytes) : AcuriteMessage × Bool :=
  match kindOf raw with
  | .null => (msg, false)
  | .number =>
    match parseInt raw with
    | some n => (set msg n, false)
    | none => (msg, true)
  | _ => (msg, true)

/-- Store a JSON value into a `float32` field: a number in the float32 range; anything else
but null saves an `UnmarshalTypeError`. -/
def storeFloat32 (msg : AcuriteMessage) (set : AcuriteMessage → Flt → AcuriteMessage)
    (raw : Bytes) : AcuriteMessage × Bool :=
  match kindOf raw with
  | .null => (msg, false)
  | .number =>
    match parseFloat32 raw with
    | some x => (set msg x, false)
    | none => (msg, true)
  | _ => (msg, true)

deriving instance DecidableEq for Except

/-- Why `json.Unmarshal` returned an error. -/
inductive JsonError where
  /-- The payload is not one well-formed JSON value (`SyntaxError`). -/
  | syntaxError
  /-- A value does not fit the Go type it is stored into (`UnmarshalTypeError`). -/
  | typeError
  /-- `CustomTime.UnmarshalJSON` returned the error of `time.Parse`. -/
  | timeError
deriving DecidableEq, Repr

/-- Store the value `raw` of one object member into the field `f`. `none`: the field's
`UnmarshalJSON` returned an error and decoding stops. Otherwise the new struct and whether an
`UnmarshalTypeError` was saved (decoding goes on).

`Time` is the one field whose type has an `UnmarshalJSON` method: `encoding/json` calls it, on
the field's address, with the text of the value whatever its kind (null included). The method
has a value receiver, so the call works on a copy of `msg.Time`; the field itself is not
written by the method, and `encoding/json` writes nothing to it either. -/
def storeMember (msg : AcuriteMessage) (f : Field) (raw : Bytes) :
    Option (AcuriteMessage × Bool) :=
  match f with
  | .Time => if CustomTime.UnmarshalJSON msg.Time raw then none else some (msg, false)
  | .Model => some (storeString msg (fun m v => { m with Model := v }) raw)
  | .Id => some (storeInt msg (fun m v => { m with Id := v }) raw)
  | .Channel => some (storeString msg (fun m v => { m with Channel := v }) raw)
  | .Battery_ok => some (storeInt msg (fun m v => { m with Battery_ok := v }) raw)
  | .Temperature_C => some (storeFloat32 msg (fun m v => { m with Temperature_C := v }) raw)
  | .Humidity => some (storeFloat32 msg (fun m v => { m with Humidity := v }) raw)
  | .Mic => some (storeString msg (fun m v => { m with Mic := v }) raw)

/-- The members of an object, from the first byte after its opening brace: for each member the
text of the key literal and the text of the value, in order. It is applied to payloads that
`checkValid` has accepted (`objectMembers_of_checkValid`). -/
def objectMembers : Nat → Bytes → Option (List (Bytes × Bytes))
  | 0, _ => none
  | fuel + 1, s =>
    match skipWS s with
    | [] => none
    | q :: rest =>
      if q == 125 then some []
      else if q != 34 then none
      else match scanString rest with
        | none => none
        | some r =>
          let key := consumed (q :: rest) r
          match skipWS r with
          | [] => none
          | colon :: r2 =>
            if colon != 58 then none
            else
              let v := skipWS r2
              match scanValue (scanFuel v) 1 v with
              | none => none
              | some r3 =>
                let raw := consumed v r3
                match skipWS r3 with
                | [] => none
                | d :: r4 =>
                  if d == 125 then some [(key, raw)]
                  else if d != 44 then none
                  else (objectMembers fuel r4).map (fun ms => (key, raw) :: ms)

/-- Decode the members of an object into the struct, in order, as `(*decodeState).object`
does: a key that selects no field is skipped, a later member for the same field overwrites an
earlier one. The result carries the struct and whether a type error was saved; `none` is the
immediate error of `UnmarshalJSON`. -/
def decodeMembers (msg : AcuriteMessage) (saved : Bool) :
    List (Bytes × Bytes) → Option (AcuriteMessage × Bool)
  | [] => some (msg, saved)
  | (key, raw) :: ms =>
    match (unquote (unwrap key)).bind findField with
    | none => decodeMembers msg saved ms
    | some f =>
      match storeMember msg f raw with
      | none => none
      | some (msg1, err) => decodeMembers msg1 (saved || err) ms

/-- `json.Unmarshal(data, &message)`: `msg` is `message` before the call; the result is the
error, or `message` after the call when the error is nil.

* Input that is not one well-formed JSON value is a syntax error.
* An object stores each member whose key selects a field; fields without a member keep the
  value they had before the call.
* `null` stores nothing and is no error.
* An array, a string, a number or a boolean cannot be stored into a struct: a type error. -/
def jsonUnmarshal (data : Bytes) (msg : AcuriteMessage) : Except JsonError AcuriteMessage :=
  if !checkValid data then .error .syntaxError
  else
    match skipWS data with
    | [] => .error .syntaxError
    | c :: rest =>
      match kindOf (c :: rest) with
      | .null => .ok msg
      | .object =>
        match objectMembers (scanFuel rest) rest with
        | none => .error .syntaxError
        | some ms =>
          match decodeMembers msg false ms with
          | none => .error .timeError
          | some (msg1, saved) => if saved then .error .typeError else .ok msg1
      | _ => .error .typeError

/-! ## idAllowlist (temp_filter.go, lines 39 to 44) -/

/-- `var idAllowlist = map[int]string{9788: "Garage", 12869: "Porch", 13875: "Outside"}`, as the
lookup `location, ok := idAllowlist[id]`: `none` is `ok == false`. -/
def idAllowlist (id : Int) : Option String :=
  if id == 9788 then some "Garage"
  else if id == 12869 then some "Porch"
  else if id == 13875 then some "Outside"
  else none

/-! ## The InfluxDB point builder used by run -/

/-- An InfluxDB `write.Point`: measurement, tags and fields in insertion order, timestamp.
The fields of this program are floats; the client stores a `float32` as the `float64` of the
same value. -/
structure Point where
  measurement : String
  tags : List (String × String)
  fields : List (String × Flt)
  timestamp : Time
deriving DecidableEq, Repr

/-- The loop of `AddTag` and `AddField`: overwrite the first entry with key `k`, append when
there is none. -/
def setOrAppend {α : Type} (k : String) (v : α) : List (String × α) → List (String × α)
  | [] => [(k, v)]
  | (k1, v1) :: rest => if k1 == k then (k1, v) :: rest else (k1, v1) :: setOrAppend k v rest

/-- `db.NewPointWithMeasurement(measurement)`. -/
def NewPointWithMeasurement (measurement : String) : Point := ⟨measurement, [], [], Time.zero⟩

/-- `(*Point).AddTag(k, v)`. -/
def Point.AddTag (p : Point) (k v : String) : Point := { p with tags := setOrAppend k v p.tags }

/-- `(*Point).AddField(k, v)` for a `float32` argument. -/
def Point.AddField (p : Point) (k : String) (v : Flt) : Point :=
  { p with fields := setOrAppend k v p.fields }

/-- `(*Point).SetTime(timestamp)`. -/
def Point.SetTime (p : Point) (timestamp : Time) : Point := { p with timestamp := timestamp }

/-- The value of the tag `k`, if the point has one. -/
def Point.tag (p : Point) (k : String) : Option String :=
  (p.tags.find? (fun t => t.1 == k)).map Prod.snd

/-- The value of the field `k`, if the point has one. -/
def Point.field (p : Point) (k : String) : Option Flt :=
  (p.fields.find? (fun t => t.1 == k)).map Prod.snd

/-- The tag keys of a point, in order. -/
def Point.tagKeys (p : Point) : List String := p.tags.map Prod.fst

/-- The Go conversion `string(n)` of an `int`: the UTF-8 text of the code point `n`, and
the replacement character `U+FFFD` when `n` is not a valid code point. -/
def stringOfInt (n : Int) : String :=
  if 0 ≤ n ∧ n.toNat.isValidChar then String.singleton (Char.ofNat n.toNat) else "\uFFFD"

/-! ## program.run and program.Stop (temp_filter.go, lines 68 to 132) -/

/-- A call on the broker client or on the store client. -/
inductive Call where
  | connect (broker clientID : String)
  | subscribe (topic : String) (qos : Nat)
  | unsubscribe (topic : String)
  | disconnect (quiesce : Nat)
  | newDbClient (url token : String)
  | writeAPI (org bucket : String)
  | dbClose
deriving DecidableEq, Repr

/-- The topic filter of a `Subscribe` call. -/
def Call.subscribed : Call → Option String
  | .subscribe topic _ => some topic
  | _ => none

/-- The topic filter of an `Unsubscribe` call. -/
def Call.unsubscribed : Call → Option String
  | .unsubscribe topic => some topic
  | _ => none

/-- Lines 69 to 94 of `run`, up to the receive loop: the calls made, and whether `run`
panicked (`connectErr`, `subscribeErr`: the token of that call carries an error). -/
def program.runSetup (connectErr subscribeErr : Bool) : List Call × Bool :=
  let c := Call.connect "tcp://localhost:1883" "acurite_filterer"
  if connectErr then ([c], true)
  else if subscribeErr then ([c, .subscribe "rtl_433/#" 0], true)
  else ([c, .subscribe "rtl_433/#" 0,
         .newDbClient "http://localhost:8086" "temperature:temperature",
         .writeAPI "raspberry" "Temperatures/a_year"], false)

/-- `func (p *program) Stop`: the calls made, and the exit status when it ends the process
(`unsubscribeErr`: the token of `Unsubscribe` carries an error). -/
def program.Stop (unsubscribeErr : Bool) : List Call × Option Nat :=
  if unsubscribeErr then ([.unsubscribe "rtl_433"], some 1)
  else ([.unsubscribe "rtl_433", .disconnect 250, .dbClose], none)

/-- The variables of the receive loop of `run` (lines 96 to 118), and what it has done so far.
* `prevPayload`, `message`: the two variables declared before the `for`.
* `decoded`: the payloads passed to `json.Unmarshal`, in order.
* `written`: the points passed to `writeDb.WritePoint`, in order.
* `panicked`: the error `run` panicked with. A panic in the goroutine of `run` ends the
  process, so nothing is received afterwards; the other components then keep the values of the
  moment of the panic. -/
structure LoopState where
  prevPayload : Bytes
  message : AcuriteMessage
  decoded : List Bytes
  written : List Point
  panicked : Option JsonError
deriving DecidableEq, Repr

/-- Lines 96 and 97: `var message AcuriteMessage; prevPayload := []byte{}`. -/
def LoopState.init : LoopState := ⟨[], AcuriteMessage.zero, [], [], none⟩

/-- Lines 108 to 113: the point built from `message` and the looked-up `location`. -/
def program.buildPoint (message : AcuriteMessage) (location : String) : Point :=
  (((((NewPointWithMeasurement "sample").AddTag "location" location).AddTag "AcuRiteId"
    (stringOfInt message.Id)).AddField "Temperature" message.Temperature_C).AddField "Humidity"
    message.Humidity).SetTime message.Time

/-- One iteration of the `for` of `run` (lines 99 to 116) on the received payload `p`. -/
def program.runStep (s : LoopState) (p : Bytes) : LoopState :=
  match s.panicked with
  | some _ => s
  | none =>
    -- `if bytes.Equal(prevPayload, p) { continue }`
    if s.prevPayload == p then s
    else
      -- `prevPayload = p`
      let s1 := { s with prevPayload := p, decoded := s.decoded ++ [p] }
      -- `if err := json.Unmarshal(p, &message); err != nil { panic(err) }`
      match jsonUnmarshal p s.message with
      | .error e => { s1 with panicked := some e }
      | .ok message =>
        let s2 := { s1 with message := message }
        -- `if location, ok := idAllowlist[message.Id]; ok { ...; go writeDb.WritePoint(p) }`
        match idAllowlist message.Id with
        | some location =>
          { s2 with written := s2.written ++ [program.buildPoint message location] }
        | none => s2

/-- The receive loop of `run` over the payloads delivered on `incoming`, in order. -/
def program.runLoop (s : LoopState) (payloads : List Bytes) : LoopState :=
  payloads.foldl program.runStep s

/-- The points the loop submits for the payload `q` when it arrives after the payloads of
`history`. -/
def program.pointsFor (history : List Bytes) (q : Bytes) : List Point :=
  (program.runLoop LoopState.init (history ++ [q])).written.drop
    (program.runLoop LoopState.init history).written.length

/-- The statement `err := x.UnmarshalJSON(b)` on a variable `x` of type `CustomTime`: the value
of `x` after the statement, and `err`. Go passes the receiver by value, so `x` is what it
was. -/
def callUnmarshalJSON (x : CustomTime) (b : Bytes) : CustomTime × Bool :=
  (x, CustomTime.UnmarshalJSON x b)

/-! ## Payloads used in the examples -/

/-- A reading of sensor 9788 (Garage): 20.5 degrees, 41 percent. -/
def payloadA : Bytes :=
  utf8 ("\x7b\"time\":\"2021-12-31 08:00:14\",\"model\":\"Acurite-Tower\",\"id\":9788," ++
    "\"channel\":\"A\",\"battery_ok\":1,\"temperature_C\":20.5,\"humidity\":41," ++
    "\"mic\":\"CHECKSUM\"\x7d")

/-- A later reading of sensor 9788: 21.0 degrees. -/
def payloadB : Bytes :=
  utf8 ("\x7b\"time\":\"2021-12-31 08:00:30\",\"model\":\"Acurite-Tower\",\"id\":9788," ++
    "\"channel\":\"A\",\"battery_ok\":1,\"temperature_C\":21.0,\"humidity\":41," ++
    "\"mic\":\"CHECKSUM\"\x7d")

/-- A reading of sensor 99999, which is not in the allowlist: 15.0 degrees, 55 percent. -/
def payloadC : Bytes :=
  utf8 ("\x7b\"time\":\"2021-12-31 08:00:40\",\"model\":\"Acurite-Tower\",\"id\":99999," ++
    "\"channel\":\"A\",\"battery_ok\":1,\"temperature_C\":15.0,\"humidity\":55," ++
    "\"mic\":\"CHECKSUM\"\x7d")

/-- A well-formed payload that names sensor 9788 and nothing else. -/
def payloadIdOnly : Bytes := utf8 "\x7b\"id\":9788\x7d"

/-- The empty JSON object. -/
def payloadEmpty : Bytes := utf8 "\x7b\x7d"

/-- A payload that is not JSON. -/
def payloadGarbage : Bytes := utf8 "21.3 C"

/-- A JSON payload whose time is not in the layout `2006-01-02 15:04:05`. -/
def payloadBadTime : Bytes :=
  utf8 "\x7b\"time\":\"31/12/2021 08:00:14\",\"id\":9788,\"temperature_C\":20.5,\"humidity\":41\x7d"

/-- The instant 2021-12-31 08:00:14 UTC. -/
def timeA : Time := ⟨2021, 12, 31, 8, 0, 14, 0⟩

/-- The reading `json.Unmarshal` decodes from `payloadA` into the zero message. -/
def messageA : AcuriteMessage :=
  ⟨Time.zero, "Acurite-Tower", 9788, "A", 1, f32 false 205 10, f32 false 41 1, "CHECKSUM"⟩

/-- The condition of the spec on a decode failure: the malformed payload `bad` is dropped and
the loop goes on, so that the payloads after it are handled as they are by a loop that has
`bad` in its dedup slot and is otherwise where it was before `bad`. -/
def program.survivesDecodeFailure (s : LoopState) (bad : Bytes) (rest : List Bytes) : Prop :=
  (program.runLoop s (bad :: rest)).panicked = none ∧
  (program.runLoop s (bad :: rest)).written =
    (program.runLoop { s with prevPayload := bad } rest).written

set_option maxRecDepth 100000

/-! ## The floating-point model -/

theorem bitLenAux_spec : ∀ (fuel n : Nat), n ≤ fuel →
    n < 2 ^ bitLenAux fuel n ∧ (n ≠ 0 → 2 ^ (bitLenAux fuel n - 1) ≤ n) := by
  intro fuel
  induction fuel with
  | zero =>
    intro n hn
    have : n = 0 := by omega
    subst this
    simp [bitLenAux]
  | succ fuel ih =>
    intro n hn
    by_cases h0 : n = 0
    · subst h0; simp [bitLenAux]
    · have hb : bitLenAux (fuel + 1) n = bitLenAux fuel (n / 2) + 1 := by
        simp [bitLenAux, h0]
      rw [hb]
      obtain ⟨hlt, hge⟩ := ih (n / 2) (by omega)
      refine ⟨?_, fun _ => ?_⟩
      · rw [Nat.pow_succ]; omega
      · simp only [Nat.add_sub_cancel]
        by_cases h2 : n / 2 = 0
        · rw [h2]
          have : bitLenAux fuel 0 = 0 := by cases fuel <;> simp [bitLenAux]
          rw [this]; simp; omega
        · have h3 := hge h2
          have h4 : 1 ≤ bitLenAux fuel (n / 2) := by
            by_contra hc
            have : bitLenAux fuel (n / 2) = 0 := by omega
            rw [this] at hlt
            simp at hlt
            exact h2 hlt
          have h5 : 2 ^ bitLenAux fuel (n / 2) = 2 ^ (bitLenAux fuel (n / 2) - 1) * 2 := by
            rw [← Nat.pow_succ]; congr 1; omega
          rw [h5]; omega

/-- `bitLen n` is the number of binary digits of `n`: `2^(bitLen n - 1) ≤ n < 2^(bitLen n)`. -/
theorem bitLen_spec (n : Nat) : n < 2 ^ bitLen n ∧ (n ≠ 0 → 2 ^ (bitLen n - 1) ≤ n) :=
  bitLenAux_spec n n (Nat.le_refl n)

/-- The layout is the text of Go's reference time, 2006-01-02 15:04:05: formatting the
reference time gives the layout, and parsing the layout gives the reference time. -/
theorem formatTime_reference :
    timeFormat ⟨2006, 1, 2, 15, 4, 5, 0⟩ = formatTime ∧
    timeParse formatTime = some ⟨2006, 1, 2, 15, 4, 5, 0⟩ := by
  decide

/-- The rounding of decimal constants agrees with IEEE 754 on sample values: `1.8` and `0.1` in
binary64, `0.1` and `20.5` in binary32, the largest finite binary32 neighbourhood, and the
smallest subnormal. -/
theorem roundRat_samples :
    f64 18 10 = .finite false 8106479329266893 (-52) ∧
    f64 1 10 = .finite false 3602879701896397 (-55) ∧
    f32 false 1 10 = .finite false 13421773 (-27) ∧
    f32 false 205 10 = .finite false 41 (-1) ∧
    f32 false (34 * 10 ^ 37) 1 = .finite false 8381647 105 ∧
    f32 false (35 * 10 ^ 37) 1 = .inf false ∧
    f32 true 1 (10 ^ 45) = .finite true 1 (-149) ∧
    f32 false 1 (10 ^ 46) = .finite false 0 0 := by
  decide

/-! ## The scanners: fuel, and agreement of the two passes of json.Unmarshal -/

theorem skipWS_length (s : Bytes) : (skipWS s).length ≤ s.length :=
  (List.dropWhile_sublist isSpace).length_le

theorem dropDigits_length (s : Bytes) : (s.dropWhile isDigit).length ≤ s.length :=
  (List.dropWhile_sublist isDigit).length_le

theorem scanString_length : ∀ (n : Nat) (s r : Bytes), s.length ≤ n →
    scanString s = some r → r.length ≤ s.length := by
  intro n
  induction n with
  | zero =>
    intro s r hn h
    cases s with
    | nil => simp [scanString] at h
    | cons c rest => simp at hn
  | succ n ih =>
    intro s r hn h
    cases s with
    | nil => simp [scanString] at h
    | cons c rest =>
      simp only [List.length_cons] at hn ⊢
      unfold scanString at h
      split at h
      · cases h; omega
      · split at h
        · cases h
        · split at h
          · have := ih rest r (by omega) h; omega
          · split at h
            · cases h
            · rename_i e rest2
              simp only [List.length_cons] at hn ⊢
              split at h
              · have := ih rest2 r (by omega) h; omega
              · split at h
                · cases h
                · split at h
                  · rename_i h1 h2 h3 h4 rest3
                    simp only [List.length_cons] at hn ⊢
                    split at h
                    · have := ih rest3 r (by omega) h; omega
                    · cases h
                  · cases h

theorem scanSign_length (s : Bytes) : (scanSign s).length ≤ s.length := by
  unfold scanSign
  split
  · split <;> simp
  · simp

theorem scanIntPart_length (s r : Bytes) (h : scanIntPart s = some r) :
    r.length ≤ s.length := by
  unfold scanIntPart at h
  split at h
  · rename_i c r0
    split at h
    · cases h; simp
    · split at h
      · cases h
        have := dropDigits_length r0
        simp only [List.length_cons]; omega
      · cases h
  · cases h

theorem scanFrac_length (s r : Bytes) (h : scanFrac s = some r) : r.length ≤ s.length := by
  unfold scanFrac at h
  split at h
  · split at h
    · cases h; exact Nat.le_refl _
    · split at h
      · rename_i d r2
        split at h
        · cases h
          have := dropDigits_length r2
          simp only [List.length_cons]; omega
        · cases h
      · cases h
  · cases h; exact Nat.le_refl _

theorem scanExp_length (s r : Bytes) (h : scanExp s = some r) : r.length ≤ s.length := by
  unfold scanExp at h
  split at h
  · rename_i c r0
    split at h
    · cases h; exact Nat.le_refl _
    · have hs : (match r0 with
        | sg :: r2 => if sg == 43 || sg == 45 then r2 else r0
        | [] => r0).length ≤ r0.length := by
        split
        · split <;> simp
        · simp
      split at h
      · rename_i d r3 heq
        rw [heq] at hs
        split at h
        · cases h
          have := dropDigits_length r3
          simp only [List.length_cons] at hs ⊢; omega
        · cases h
      · cases h
  · cases h; exact Nat.le_refl _

theorem scanNumber_length (s r : Bytes) (h : scanNumber s = some r) : r.length ≤ s.length := by
  unfold scanNumber at h
  cases h1 : scanIntPart (scanSign s) with
  | none => simp [h1] at h
  | some s1 =>
    simp only [h1, Option.some_bind] at h
    cases h2 : scanFrac s1 with
    | none => simp [h2] at h
    | some s2 =>
      simp only [h2, Option.some_bind] at h
      have a := scanSign_length s
      have b := scanIntPart_length _ _ h1
      have c := scanFrac_length _ _ h2
      have d := scanExp_length _ _ h
      omega

theorem stripPrefix_length : ∀ (lit s r : Bytes), stripPrefix lit s = some r →
    r.length ≤ s.length := by
  intro lit
  induction lit with
  | nil => intro s r h; cases s <;> (simp [stripPrefix] at h; subst h; simp)
  | cons l lit ih =>
    intro s r h
    cases s with
    | nil => simp [stripPrefix] at h
    | cons c s =>
      simp only [stripPrefix] at h
      split at h
      · have := ih s r h
        simp only [List.length_cons]; omega
      · cases h

theorem scan_length : ∀ fuel : Nat,
    (∀ d s r, scanValue fuel d s = some r → r.length ≤ s.length) ∧
    (∀ d s r, scanMembers fuel d s = some r → r.length ≤ s.length) ∧
    (∀ d s r, scanElems fuel d s = some r → r.length ≤ s.length) := by
  intro fuel
  induction fuel with
  | zero =>
    refine ⟨?_, ?_, ?_⟩ <;> intro d s r h
    · simp [scanValue] at h
    · simp [scanMembers] at h
    · simp [scanElems] at h
  | succ fuel ih =>
    obtain ⟨ihV, ihM, ihE⟩ := ih
    refine ⟨?_, ?_, ?_⟩
    · intro d s r h
      cases s with
      | nil => simp [scanValue] at h
      | cons c rest =>
        simp only [scanValue] at h
        simp only [List.length_cons]
        split at h
        · split at h
          · cases h
          · have hw := skipWS_length rest
            split at h
            · cases h
            · rename_i c2 rest2 heq
              rw [heq] at hw
              simp only [List.length_cons] at hw
              split at h
              · cases h; omega
              · have := ihM _ _ _ h
                simp only [List.length_cons] at this; omega
        · split at h
          · split at h
            · cases h
            · have hw := skipWS_length rest
              split at h
              · cases h
              · rename_i c2 rest2 heq
                rw [heq] at hw
                simp only [List.length_cons] at hw
                split at h
                · cases h; omega
                · have := ihE _ _ _ h
                  simp only [List.length_cons] at this; omega
          · split at h
            · have := scanString_length _ _ _ (Nat.le_refl _) h; omega
            · split at h
              · have := scanNumber_length _ _ h
                simp only [List.length_cons] at this; omega
              · split at h
                · have := stripPrefix_length _ _ _ h; omega
                · split at h
                  · have := stripPrefix_length _ _ _ h; omega
                  · split at h
                    · have := stripPrefix_length _ _ _ h; omega
                    · cases h
    · intro d s r h
      cases s with
      | nil => simp [scanMembers] at h
      | cons q rest =>
        simp only [scanMembers] at h
        simp only [List.length_cons]
        split at h
        · cases h
        · split at h
          · cases h
          · rename_i r1 hs
            have h1 := scanString_length _ _ _ (Nat.le_refl _) hs
            have hw := skipWS_length r1
            split at h
            · cases h
            · rename_i colon r2 heq
              rw [heq] at hw
              simp only [List.length_cons] at hw
              split at h
              · cases h
              · split at h
                · cases h
                · rename_i r3 hv
                  have h3 := ihV _ _ _ hv
                  have hw2 := skipWS_length r2
                  have hw3 := skipWS_length r3
                  split at h
                  · cases h
                  · rename_i d4 r4 heq4
                    rw [heq4] at hw3
                    simp only [List.length_cons] at hw3
                    split at h
                    · have := ihM _ _ _ h
                      have hw4 := skipWS_length r4
                      omega
                    · split at h
                      · cases h; omega
                      · cases h
    · intro d s r h
      simp only [scanElems] at h
      split at h
      · cases h
      · rename_i r1 hv
        have h1 := ihV _ _ _ hv
        have hw := skipWS_length r1
        split at h
        · cases h
        · rename_i d2 r2 heq
          rw [heq] at hw
          simp only [List.length_cons] at hw
          split at h
          · have := ihE _ _ _ h
            have hw2 := skipWS_length r2
            omega
          · split at h
            · cases h; omega
            · cases h


theorem scan_fuel_succ : ∀ fuel : Nat,
    (∀ d s, 2 * s.length + 1 ≤ fuel → scanValue (fuel + 1) d s = scanValue fuel d s) ∧
    (∀ d s, 2 * s.length + 2 ≤ fuel → scanMembers (fuel + 1) d s = scanMembers fuel d s) ∧
    (∀ d s, 2 * s.length + 2 ≤ fuel → scanElems (fuel + 1) d s = scanElems fuel d s) := by
  intro fuel
  induction fuel with
  | zero =>
    refine ⟨?_, ?_, ?_⟩ <;> intro d s h <;> omega
  | succ fuel ih =>
    obtain ⟨ihV, ihM, ihE⟩ := ih
    refine ⟨?_, ?_, ?_⟩
    · intro d s hf
      cases s with
      | nil => simp [scanValue]
      | cons c rest =>
        simp only [List.length_cons] at hf
        have hw := skipWS_length rest
        conv => lhs; rw [scanValue]
        conv => rhs; rw [scanValue]
        by_cases h1 : (c == 123) = true
        · simp only [if_pos h1]
          by_cases h2 : maxNestingDepth < d + 1
          · simp only [if_pos h2]
          · simp only [if_neg h2]
            cases hs : skipWS rest with
            | nil => rfl
            | cons c2 rest2 =>
              dsimp only
              rw [hs] at hw
              simp only [List.length_cons] at hw
              by_cases h3 : (c2 == 125) = true
              · simp only [if_pos h3]
              · simp only [if_neg h3]
                exact ihM _ _ (by simp only [List.length_cons]; omega)
        · simp only [if_neg h1]
          by_cases h2 : (c == 91) = true
          · simp only [if_pos h2]
            by_cases h3 : maxNestingDepth < d + 1
            · simp only [if_pos h3]
            · simp only [if_neg h3]
              cases hs : skipWS rest with
              | nil => rfl
              | cons c2 rest2 =>
                dsimp only
                rw [hs] at hw
                simp only [List.length_cons] at hw
                by_cases h4 : (c2 == 93) = true
                · simp only [if_pos h4]
                · simp only [if_neg h4]
                  exact ihE _ _ (by simp only [List.length_cons]; omega)
          · simp only [if_neg h2]
    · intro d s hf
      cases s with
      | nil => simp [scanMembers]
      | cons q rest =>
        simp only [List.length_cons] at hf
        conv => lhs; rw [scanMembers]
        conv => rhs; rw [scanMembers]
        by_cases h1 : (q != 34) = true
        · simp only [if_pos h1]
        · simp only [if_neg h1]
          cases hs : scanString rest with
          | none => rfl
          | some r =>
            dsimp only
            have hr := scanString_length _ _ _ (Nat.le_refl _) hs
            have hw := skipWS_length r
            cases hs2 : skipWS r with
            | nil => rfl
            | cons colon r2 =>
              dsimp only
              rw [hs2] at hw
              simp only [List.length_cons] at hw
              by_cases h2 : (colon != 58) = true
              · simp only [if_pos h2]
              · simp only [if_neg h2]
                have hw2 := skipWS_length r2
                rw [ihV d (skipWS r2) (by omega)]
                cases hv : scanValue fuel d (skipWS r2) with
                | none => rfl
                | some r3 =>
                  dsimp only
                  have h3 := (scan_length fuel).1 _ _ _ hv
                  have hw3 := skipWS_length r3
                  cases hs3 : skipWS r3 with
                  | nil => rfl
                  | cons d4 r4 =>
                    dsimp only
                    rw [hs3] at hw3
                    simp only [List.length_cons] at hw3
                    have hw4 := skipWS_length r4
                    by_cases h4 : (d4 == 44) = true
                    · simp only [if_pos h4]
                      exact ihM _ _ (by omega)
                    · simp only [if_neg h4]
    · intro d s hf
      conv => lhs; rw [scanElems]
      conv => rhs; rw [scanElems]
      rw [ihV d s (by omega)]
      cases hv : scanValue fuel d s with
      | none => rfl
      | some r =>
        dsimp only
        have h1 := (scan_length fuel).1 _ _ _ hv
        have hw := skipWS_length r
        cases hs : skipWS r with
        | nil => rfl
        | cons d2 r2 =>
          dsimp only
          rw [hs] at hw
          simp only [List.length_cons] at hw
          have hw2 := skipWS_length r2
          by_cases h2 : (d2 == 44) = true
          · simp only [if_pos h2]
            exact ihE _ _ (by omega)
          · simp only [if_neg h2]

/-- More fuel than `scanFuel s` does not change the result of scanning `s`. -/
theorem scanValue_fuel (d : Nat) (s : Bytes) (k : Nat) :
    scanValue (scanFuel s + k) d s = scanValue (scanFuel s) d s := by
  induction k with
  | zero => rfl
  | succ k ih =>
    rw [← ih]
    exact (scan_fuel_succ (scanFuel s + k)).1 d s (by unfold scanFuel; omega)


theorem decodeRune_size (b0 : UInt8) (rest : Bytes) : 1 ≤ (decodeRune b0 rest).2 := by
  unfold decodeRune
  repeat' split
  all_goals try dsimp only
  all_goals try split
  all_goals try dsimp only
  all_goals omega

theorem unquoteAux_fuel_succ : ∀ (fuel : Nat) (s : Bytes), s.length ≤ fuel →
    unquoteAux (fuel + 1) s = unquoteAux fuel s := by
  intro fuel
  induction fuel with
  | zero =>
    intro s hs
    cases s with
    | nil => simp [unquoteAux]
    | cons c rest => simp at hs
  | succ fuel ih =>
    intro s hs
    cases s with
    | nil => simp [unquoteAux]
    | cons c rest =>
      simp only [List.length_cons] at hs
      conv => lhs; rw [unquoteAux.eq_def]
      conv => rhs; rw [unquoteAux.eq_def]
      dsimp only
      by_cases h1 : (c == 92) = true
      · simp only [if_pos h1]
        cases rest with
        | nil => rfl
        | cons e rest2 =>
          dsimp only
          simp only [List.length_cons] at hs
          have hd4 : (rest2.drop 4).length ≤ fuel := by simp only [List.length_drop]; omega
          have hd6 : ((rest2.drop 4).drop 6).length ≤ fuel := by
            simp only [List.length_drop]; omega
          rw [ih _ hd4, ih _ hd6, ih rest2 (by omega)]
      · simp only [if_neg h1]
        by_cases h2 : (c == 34 || c < 32) = true
        · simp only [if_pos h2]
        · simp only [if_neg h2]
          have hsz := decodeRune_size c rest
          cases hd : decodeRune c rest with
          | mk r size =>
            rw [hd] at hsz
            dsimp only at hsz ⊢
            rw [ih _ (by simp only [List.length_drop, List.length_cons]; omega)]

/-- More fuel than the length of the text does not change the result of unquoting it. -/
theorem unquoteAux_fuel (s : Bytes) (k : Nat) :
    unquoteAux (s.length + k) s = unquoteAux s.length s := by
  induction k with
  | zero => rfl
  | succ k ih =>
    rw [← ih]
    exact unquoteAux_fuel_succ (s.length + k) s (by omega)

theorem objectMembers_fuel_succ : ∀ (fuel : Nat) (s : Bytes), s.length + 1 ≤ fuel →
    objectMembers (fuel + 1) s = objectMembers fuel s := by
  intro fuel
  induction fuel with
  | zero => intro s hs; omega
  | succ fuel ih =>
    intro s hs
    conv => lhs; rw [objectMembers]
    conv => rhs; rw [objectMembers]
    have hw := skipWS_length s
    cases h0 : skipWS s with
    | nil => rfl
    | cons q rest =>
      dsimp only
      rw [h0] at hw
      simp only [List.length_cons] at hw
      by_cases h1 : (q == 125) = true
      · simp only [if_pos h1]
      · simp only [if_neg h1]
        by_cases h2 : (q != 34) = true
        · simp only [if_pos h2]
        · simp only [if_neg h2]
          cases hs1 : scanString rest with
          | none => rfl
          | some r =>
            dsimp only
            have hr := scanString_length _ _ _ (Nat.le_refl _) hs1
            have hw1 := skipWS_length r
            cases hs2 : skipWS r with
            | nil => rfl
            | cons colon r2 =>
              dsimp only
              rw [hs2] at hw1
              simp only [List.length_cons] at hw1
              by_cases h3 : (colon != 58) = true
              · simp only [if_pos h3]
              · simp only [if_neg h3]
                have hw2 := skipWS_length r2
                cases hv : scanValue (scanFuel (skipWS r2)) 1 (skipWS r2) with
                | none => rfl
                | some r3 =>
                  dsimp only
                  have h3l := (scan_length _).1 _ _ _ hv
                  have hw3 := skipWS_length r3
                  cases hs3 : skipWS r3 with
                  | nil => rfl
                  | cons d4 r4 =>
                    dsimp only
                    rw [hs3] at hw3
                    simp only [List.length_cons] at hw3
                    by_cases h4 : (d4 == 125) = true
                    · simp only [if_pos h4]
                    · simp only [if_neg h4]
                      by_cases h5 : (d4 != 44) = true
                      · simp only [if_pos h5]
                      · simp only [if_neg h5]
                        rw [ih r4 (by omega)]

/-- More fuel than `scanFuel s` does not change the members found in `s`. -/
theorem objectMembers_fuel (s : Bytes) (k : Nat) :
    objectMembers (scanFuel s + k) s = objectMembers (scanFuel s) s := by
  induction k with
  | zero => rfl
  | succ k ih =>
    rw [← ih]
    exact objectMembers_fuel_succ (scanFuel s + k) s (by unfold scanFuel; omega)



theorem scan_mono : ∀ fuel : Nat,
    (∀ d s r, scanValue fuel d s = some r → scanValue (fuel + 1) d s = some r) ∧
    (∀ d s r, scanMembers fuel d s = some r → scanMembers (fuel + 1) d s = some r) ∧
    (∀ d s r, scanElems fuel d s = some r → scanElems (fuel + 1) d s = some r) := by
  intro fuel
  induction fuel with
  | zero =>
    refine ⟨?_, ?_, ?_⟩ <;> intro d s r h
    · simp [scanValue] at h
    · simp [scanMembers] at h
    · simp [scanElems] at h
  | succ fuel ih =>
    obtain ⟨ihV, ihM, ihE⟩ := ih
    refine ⟨?_, ?_, ?_⟩
    · intro d s r h
      cases s with
      | nil => simp [scanValue] at h
      | cons c rest =>
        rw [scanValue] at h
        conv => lhs; rw [scanValue]
        by_cases h1 : (c == 123) = true
        · simp only [if_pos h1] at h ⊢
          by_cases h2 : maxNestingDepth < d + 1
          · simp only [if_pos h2] at h; cases h
          · simp only [if_neg h2] at h ⊢
            cases hs : skipWS rest with
            | nil => rw [hs] at h; cases h
            | cons c2 rest2 =>
              rw [hs] at h
              dsimp only at h ⊢
              by_cases h3 : (c2 == 125) = true
              · simp only [if_pos h3] at h ⊢; exact h
              · simp only [if_neg h3] at h ⊢; exact ihM _ _ _ h
        · simp only [if_neg h1] at h ⊢
          by_cases h2 : (c == 91) = true
          · simp only [if_pos h2] at h ⊢
            by_cases h3 : maxNestingDepth < d + 1
            · simp only [if_pos h3] at h; cases h
            · simp only [if_neg h3] at h ⊢
              cases hs : skipWS rest with
              | nil => rw [hs] at h; cases h
              | cons c2 rest2 =>
                rw [hs] at h
                dsimp only at h ⊢
                by_cases h4 : (c2 == 93) = true
                · simp only [if_pos h4] at h ⊢; exact h
                · simp only [if_neg h4] at h ⊢; exact ihE _ _ _ h
          · simp only [if_neg h2] at h ⊢; exact h
    · intro d s r h
      cases s with
      | nil => simp [scanMembers] at h
      | cons q rest =>
        rw [scanMembers] at h
        conv => lhs; rw [scanMembers]
        by_cases h1 : (q != 34) = true
        · simp only [if_pos h1] at h; cases h
        · simp only [if_neg h1] at h ⊢
          cases hs : scanString rest with
          | none => rw [hs] at h; cases h
          | some r1 =>
            rw [hs] at h
            dsimp only at h ⊢
            cases hs2 : skipWS r1 with
            | nil => rw [hs2] at h; cases h
            | cons colon r2 =>
              rw [hs2] at h
              dsimp only at h ⊢
              by_cases h2 : (colon != 58) = true
              · simp only [if_pos h2] at h; cases h
              · simp only [if_neg h2] at h ⊢
                cases hv : scanValue fuel d (skipWS r2) with
                | none => rw [hv] at h; cases h
                | some r3 =>
                  rw [hv] at h
                  rw [ihV _ _ _ hv]
                  dsimp only at h ⊢
                  cases hs3 : skipWS r3 with
                  | nil => rw [hs3] at h; cases h
                  | cons d4 r4 =>
                    rw [hs3] at h
                    dsimp only at h ⊢
                    by_cases h4 : (d4 == 44) = true
                    · simp only [if_pos h4] at h ⊢; exact ihM _ _ _ h
                    · simp only [if_neg h4] at h ⊢; exact h
    · intro d s r h
      rw [scanElems] at h
      conv => lhs; rw [scanElems]
      cases hv : scanValue fuel d s with
      | none => rw [hv] at h; cases h
      | some r1 =>
        rw [hv] at h
        rw [ihV _ _ _ hv]
        dsimp only at h ⊢
        cases hs : skipWS r1 with
        | nil => rw [hs] at h; cases h
        | cons d2 r2 =>
          rw [hs] at h
          dsimp only at h ⊢
          by_cases h2 : (d2 == 44) = true
          · simp only [if_pos h2] at h ⊢; exact ihE _ _ _ h
          · simp only [if_neg h2] at h ⊢; exact h

theorem scanValue_mono (d : Nat) (s r : Bytes) (fuel k : Nat)
    (h : scanValue fuel d s = some r) : scanValue (fuel + k) d s = some r := by
  induction k with
  | zero => exact h
  | succ k ih => exact (scan_mono (fuel + k)).1 d s r ih

theorem scanMembers_mono (d : Nat) (s r : Bytes) (fuel k : Nat)
    (h : scanMembers fuel d s = some r) : scanMembers (fuel + k) d s = some r := by
  induction k with
  | zero => exact h
  | succ k ih => exact (scan_mono (fuel + k)).2.1 d s r ih

/-- A value that scans with some fuel scans, to the same rest, with the fuel `scanFuel s`. -/
theorem scanValue_scanFuel (d : Nat) (s r : Bytes) (fuel : Nat)
    (h : scanValue fuel d s = some r) : scanValue (scanFuel s) d s = some r := by
  by_cases hle : fuel ≤ scanFuel s
  · have := scanValue_mono d s r fuel (scanFuel s - fuel) h
    rwa [Nat.add_sub_cancel' hle] at this
  · have hk : fuel = scanFuel s + (fuel - scanFuel s) := by omega
    rw [hk, scanValue_fuel] at h
    exact h

theorem skipWS_idem (s : Bytes) : skipWS (skipWS s) = skipWS s := by
  unfold skipWS
  induction s with
  | nil => rfl
  | cons c rest ih =>
    by_cases hc : isSpace c = true
    · simp only [List.dropWhile_cons_of_pos hc]; exact ih
    · simp only [List.dropWhile_cons_of_neg hc]

theorem objectMembers_skipWS (fuel : Nat) (s : Bytes) :
    objectMembers fuel (skipWS s) = objectMembers fuel s := by
  cases fuel with
  | zero => simp [objectMembers]
  | succ fuel =>
    conv => lhs; rw [objectMembers]
    conv => rhs; rw [objectMembers]
    rw [skipWS_idem]

/-- Members that the scanner accepts are members that `objectMembers` finds. -/
theorem objectMembers_of_scanMembers : ∀ (fuel : Nat) (s r : Bytes),
    scanMembers fuel 1 s = some r → ∃ ms, objectMembers fuel s = some ms := by
  intro fuel
  induction fuel with
  | zero => intro s r h; simp [scanMembers] at h
  | succ fuel ih =>
    intro s r h
    cases s with
    | nil => simp [scanMembers] at h
    | cons q rest =>
      rw [scanMembers] at h
      rw [objectMembers]
      by_cases h1 : (q != 34) = true
      · simp only [if_pos h1] at h; cases h
      · simp only [if_neg h1] at h
        have hq : q = 34 := by simpa using h1
        have hsp : skipWS (q :: rest) = q :: rest := by
          subst hq; rfl
        rw [hsp]
        dsimp only
        have hq2 : ¬ (q == 125) = true := by subst hq; decide
        simp only [if_neg hq2, if_neg h1]
        cases hs : scanString rest with
        | none => rw [hs] at h; cases h
        | some r1 =>
          rw [hs] at h
          dsimp only at h ⊢
          cases hs2 : skipWS r1 with
          | nil => rw [hs2] at h; cases h
          | cons colon r2 =>
            rw [hs2] at h
            dsimp only at h ⊢
            by_cases h2 : (colon != 58) = true
            · simp only [if_pos h2] at h; cases h
            · simp only [if_neg h2] at h ⊢
              cases hv : scanValue fuel 1 (skipWS r2) with
              | none => rw [hv] at h; cases h
              | some r3 =>
                rw [hv] at h
                rw [scanValue_scanFuel _ _ _ _ hv]
                dsimp only at h ⊢
                cases hs3 : skipWS r3 with
                | nil => rw [hs3] at h; cases h
                | cons d4 r4 =>
                  rw [hs3] at h
                  dsimp only at h ⊢
                  by_cases h4 : (d4 == 125) = true
                  · simp only [if_pos h4]; exact ⟨_, rfl⟩
                  · simp only [if_neg h4]
                    by_cases h5 : (d4 == 44) = true
                    · have h6 : ¬ (d4 != 44) = true := by simpa using h5
                      simp only [if_pos h5] at h
                      simp only [if_neg h6]
                      obtain ⟨ms, hms⟩ := ih _ _ h
                      rw [objectMembers_skipWS] at hms
                      rw [hms]
                      exact ⟨_, rfl⟩
                    · simp only [if_neg h5, if_neg h4] at h; cases h


/-- In a payload that `checkValid` accepts and that is an object, `objectMembers` finds the
members. -/
theorem objectMembers_of_checkValid (data rest : Bytes) (hv : checkValid data = true)
    (hs : skipWS data = 123 :: rest) : ∃ ms, objectMembers (scanFuel rest) rest = some ms := by
  have hlen : rest.length + 1 ≤ data.length := by
    have := skipWS_length data
    rw [hs] at this
    simpa using this
  unfold checkValid at hv
  rw [hs] at hv
  have hf : scanFuel data = (2 * data.length + 1) + 1 := rfl
  rw [hf, scanValue] at hv
  have h1 : ((123 : UInt8) == 123) = true := by decide
  have h2 : ¬ maxNestingDepth < 0 + 1 := by decide
  simp only [if_pos h1, if_neg h2] at hv
  cases hw : skipWS rest with
  | nil => rw [hw] at hv; simp at hv
  | cons c2 rest2 =>
    rw [hw] at hv
    dsimp only at hv
    by_cases h3 : (c2 == 125) = true
    · have hf2 : scanFuel rest = (2 * rest.length + 1) + 1 := rfl
      rw [hf2, objectMembers, hw]
      dsimp only
      simp only [if_pos h3]
      exact ⟨_, rfl⟩
    · simp only [if_neg h3] at hv
      cases hm : scanMembers (2 * data.length + 1) (0 + 1) (c2 :: rest2) with
      | none => rw [hm] at hv; simp at hv
      | some r0 =>
        obtain ⟨ms, hms⟩ := objectMembers_of_scanMembers _ _ _ hm
        rw [← hw, objectMembers_skipWS] at hms
        have hk : 2 * data.length + 1 = scanFuel rest + (2 * data.length + 1 - scanFuel rest) := by
          unfold scanFuel; omega
        rw [hk, objectMembers_fuel] at hms
        exact ⟨ms, hms⟩

/-- `json.Unmarshal` reports a syntax error exactly for the payloads that are not one
well-formed JSON value. -/
theorem jsonUnmarshal_syntaxError (data : Bytes) (msg : AcuriteMessage) :
    jsonUnmarshal data msg = .error .syntaxError ↔ checkValid data = false := by
  constructor
  · intro h
    by_contra hv
    have hv : checkValid data = true := by simpa using hv
    unfold jsonUnmarshal at h
    simp only [hv, Bool.not_true, Bool.false_eq_true, if_false] at h
    cases hs : skipWS data with
    | nil =>
      unfold checkValid at hv
      rw [hs] at hv
      have : scanValue (scanFuel data) 0 [] = none := by
        unfold scanFuel
        rw [scanValue]
      rw [this] at hv
      simp at hv
    | cons c rest =>
      rw [hs] at h
      dsimp only at h
      cases hk : kindOf (c :: rest) with
      | object =>
        have hc : c = 123 := by
          unfold kindOf at hk
          dsimp only at hk
          by_cases h1 : (c == 34) = true
          · simp only [if_pos h1] at hk; cases hk
          · simp only [if_neg h1] at hk
            by_cases h2 : (c == 123) = true
            · simpa using h2
            · simp only [if_neg h2] at hk
              repeat' split at hk
              all_goals cases hk
        subst hc
        obtain ⟨ms, hms⟩ := objectMembers_of_checkValid data rest hv hs
        rw [hk] at h
        dsimp only at h
        rw [hms] at h
        dsimp only at h
        cases hd : decodeMembers msg false ms with
        | none => rw [hd] at h; cases h
        | some res =>
          obtain ⟨m1, saved⟩ := res
          rw [hd] at h
          dsimp only at h
          split at h <;> cases h
      | string => rw [hk] at h; cases h
      | array => rw [hk] at h; cases h
      | bool => rw [hk] at h; cases h
      | null => rw [hk] at h; cases h
      | number => rw [hk] at h; cases h
  · intro h
    unfold jsonUnmarshal
    simp [h]

/-! ## Lemmas on the receive loop -/

theorem runLoop_snoc (s : LoopState) (ps : List Bytes) (p : Bytes) :
    program.runLoop s (ps ++ [p]) = program.runStep (program.runLoop s ps) p := by
  simp [program.runLoop, List.foldl_append]

theorem runLoop_cons (s : LoopState) (p : Bytes) (ps : List Bytes) :
    program.runLoop s (p :: ps) = program.runLoop (program.runStep s p) ps := rfl

theorem runStep_of_panicked (s : LoopState) (p : Bytes) (e : JsonError)
    (h : s.panicked = some e) : program.runStep s p = s := by
  simp [program.runStep, h]

theorem runLoop_of_panicked (s : LoopState) (ps : List Bytes) (e : JsonError)
    (h : s.panicked = some e) : program.runLoop s ps = s := by
  induction ps with
  | nil => rfl
  | cons p ps ih => rw [runLoop_cons, runStep_of_panicked s p e h, ih]

theorem runStep_of_equal (s : LoopState) (p : Bytes) (h : s.prevPayload = p) :
    program.runStep s p = s := by
  unfold program.runStep
  cases s.panicked <;> simp [h]

/-- A running loop that decodes `p` without error: the state after the iteration. -/
theorem runStep_of_ok (s : LoopState) (p : Bytes) (m : AcuriteMessage)
    (hlive : s.panicked = none) (hnew : s.prevPayload ≠ p)
    (hdec : jsonUnmarshal p s.message = .ok m) :
    program.runStep s p =
      { prevPayload := p, message := m, decoded := s.decoded ++ [p],
        written := match idAllowlist m.Id with
          | some location => s.written ++ [program.buildPoint m location]
          | none => s.written,
        panicked := none } := by
  unfold program.runStep
  simp only [hlive, hdec]
  have : (s.prevPayload == p) = false := by simpa using hnew
  simp only [this]
  cases idAllowlist m.Id <;> simp

/-- A running loop whose decoder fails on `p`: the state after the iteration. -/
theorem runStep_of_error (s : LoopState) (p : Bytes) (e : JsonError)
    (hlive : s.panicked = none) (hnew : s.prevPayload ≠ p)
    (hdec : jsonUnmarshal p s.message = .error e) :
    program.runStep s p =
      { s with prevPayload := p, decoded := s.decoded ++ [p], panicked := some e } := by
  unfold program.runStep
  simp only [hlive, hdec]
  have : (s.prevPayload == p) = false := by simpa using hnew
  simp [this]

/-- After an iteration that leaves the loop running, the dedup slot holds the payload of that
iteration. -/
theorem runStep_prevPayload (s : LoopState) (p : Bytes)
    (h : (program.runStep s p).panicked = none) : (program.runStep s p).prevPayload = p := by
  by_cases heq : s.prevPayload = p
  · rw [runStep_of_equal s p heq]; exact heq
  · cases hp : s.panicked with
    | some e => rw [runStep_of_panicked s p e hp] at h; rw [hp] at h; cases h
    | none =>
      cases hdec : jsonUnmarshal p s.message with
      | error e => rw [runStep_of_error s p e hp heq hdec] at h; cases h
      | ok m => rw [runStep_of_ok s p m hp heq hdec]

/-- The payloads passed to the decoder by one iteration of a running loop: the payload itself
unless it equals the dedup slot. -/
theorem runStep_decoded (s : LoopState) (p : Bytes) (hlive : s.panicked = none)
    (hnew : s.prevPayload ≠ p) : (program.runStep s p).decoded = s.decoded ++ [p] := by
  cases hdec : jsonUnmarshal p s.message with
  | error e => rw [runStep_of_error s p e hlive hnew hdec]
  | ok m => rw [runStep_of_ok s p m hlive hnew hdec]

/-- The message variable keeps the zero time it starts with: no iteration writes the field. -/
theorem storeMember_time (msg msg1 : AcuriteMessage) (f : Field) (raw : Bytes) (err : Bool)
    (h : storeMember msg f raw = some (msg1, err)) : msg1.Time = msg.Time := by
  cases f <;> simp only [storeMember, storeString, storeInt, storeFloat32] at h
  · split at h
    · cases h
    · simp only [Option.some.injEq, Prod.mk.injEq] at h; rw [← h.1]
  all_goals
    simp only [Option.some.injEq] at h
    split at h
    · simp only [Prod.mk.injEq] at h; rw [← h.1]
    · split at h <;> (simp only [Prod.mk.injEq] at h; rw [← h.1])
    · simp only [Prod.mk.injEq] at h; rw [← h.1]

theorem decodeMembers_time (ms : List (Bytes × Bytes)) :
    ∀ (msg msg1 : AcuriteMessage) (saved saved1 : Bool),
      decodeMembers msg saved ms = some (msg1, saved1) → msg1.Time = msg.Time := by
  induction ms with
  | nil =>
    intro msg msg1 saved saved1 h
    simp only [decodeMembers, Option.some.injEq, Prod.mk.injEq] at h
    rw [← h.1]
  | cons kv ms ih =>
    intro msg msg1 saved saved1 h
    obtain ⟨key, raw⟩ := kv
    simp only [decodeMembers] at h
    split at h
    · exact ih _ _ _ _ h
    · split at h
      · cases h
      · rename_i f _ msg2 err hst
        rw [ih _ _ _ _ h]
        exact storeMember_time _ _ _ _ _ hst

/-- `json.Unmarshal` never changes the `Time` field of the message. -/
theorem jsonUnmarshal_time (data : Bytes) (msg m : AcuriteMessage)
    (h : jsonUnmarshal data msg = .ok m) : m.Time = msg.Time := by
  unfold jsonUnmarshal at h
  split at h
  · cases h
  · split at h
    · cases h
    · split at h
      · cases h; rfl
      · split at h
        · cases h
        · split at h
          · cases h
          · rename_i hdm
            split at h
            · cases h
            · cases h
              exact decodeMembers_time _ _ _ _ _ hdm
      · cases h

/-- Every point the loop has submitted carries the zero time, and so does the message
variable: the invariant of the receive loop started by `run`. -/
theorem runLoop_timestamps (ps : List Bytes) :
    (program.runLoop LoopState.init ps).message.Time = Time.zero ∧
    ∀ pt ∈ (program.runLoop LoopState.init ps).written, pt.timestamp = Time.zero := by
  induction ps using List.reverseRecOn with
  | nil => exact ⟨rfl, by simp [program.runLoop, LoopState.init]⟩
  | append_singleton ps p ih =>
    rw [runLoop_snoc]
    generalize program.runLoop LoopState.init ps = s at ih
    obtain ⟨ht, hw⟩ := ih
    by_cases heq : s.prevPayload = p
    · rw [runStep_of_equal s p heq]; exact ⟨ht, hw⟩
    · cases hp : s.panicked with
      | some e => rw [runStep_of_panicked s p e hp]; exact ⟨ht, hw⟩
      | none =>
        cases hdec : jsonUnmarshal p s.message with
        | error e => rw [runStep_of_error s p e hp heq hdec]; exact ⟨ht, hw⟩
        | ok m =>
          have hm : m.Time = Time.zero := (jsonUnmarshal_time p s.message m hdec).trans ht
          rw [runStep_of_ok s p m hp heq hdec]
          refine ⟨hm, ?_⟩
          cases idAllowlist m.Id with
          | none => exact hw
          | some loc =>
            intro pt hpt
            simp only [List.mem_append, List.mem_singleton] at hpt
            rcases hpt with hpt | hpt
            · exact hw pt hpt
            · rw [hpt]; exact hm

/-- A running loop that decodes a payload into a reading with an identity outside the
allowlist submits no point; what the iteration changes is the dedup slot, the message
variable (it now holds that reading) and the record of decoder calls. -/
theorem runStep_of_unknown_identity (s : LoopState) (p : Bytes) (m : AcuriteMessage)
    (hlive : s.panicked = none) (hnew : s.prevPayload ≠ p)
    (hdec : jsonUnmarshal p s.message = .ok m) (hid : idAllowlist m.Id = none) :
    program.runStep s p =
      { s with prevPayload := p, message := m, decoded := s.decoded ++ [p] } := by
  rw [runStep_of_ok s p m hlive hnew hdec, hid, ← hlive]

/-- The scenario of the spec: reading A of sensor 9788 at 20.5 degrees, A again, reading B of
the same sensor at 21 degrees, reading C of the unknown sensor 99999. Two points are
submitted, both tagged Garage, with the temperatures of A and of B; three payloads are passed
to the decoder. -/
theorem scenario_A_A_B_C :
    (program.runLoop LoopState.init [payloadA, payloadA, payloadB, payloadC]).written.map
        (fun pt => (pt.tag "location", pt.field "Temperature"))
      = [(some "Garage", some (f32 false 205 10)), (some "Garage", some (f32 false 21 1))] ∧
    (program.runLoop LoopState.init [payloadA, payloadA, payloadB, payloadC]).decoded
      = [payloadA, payloadB, payloadC] ∧
    (program.runLoop LoopState.init [payloadA, payloadA, payloadB, payloadC]).panicked = none := by
  decide

/-! ## The claims -/

/-- C1: in the receive loop of `run`, a payload equal to the payload received just before it is
suppressed: the iteration changes nothing, so nothing is passed to the decoder and no point is
submitted. A payload that differs from the one just before it is passed to the decoder when
the loop receives it (the loop is running), whatever was received two or more payloads
earlier. -/
theorem dedup_single_slot (ps : List Bytes) (p q : Bytes) :
    (q = p → program.runStep (program.runLoop LoopState.init (ps ++ [p])) q
        = program.runLoop LoopState.init (ps ++ [p])) ∧
    (q ≠ p → (program.runLoop LoopState.init (ps ++ [p])).panicked = none →
      (program.runStep (program.runLoop LoopState.init (ps ++ [p])) q).decoded
        = (program.runLoop LoopState.init (ps ++ [p])).decoded ++ [q]) := by
  rw [runLoop_snoc]
  constructor
  · intro hq
    cases hp : (program.runStep (program.runLoop LoopState.init ps) p).panicked with
    | some e => exact runStep_of_panicked _ q e hp
    | none => exact runStep_of_equal _ q (by rw [runStep_prevPayload _ p hp, hq])
  · intro hq hp
    refine runStep_decoded _ q hp ?_
    rw [runStep_prevPayload _ p hp]
    exact fun h => hq h.symm

/-- C1, at concrete inputs: after A, B the payload A (the payload of two messages earlier) is
decoded again; after A the payload A changes nothing. -/
theorem dedup_single_slot_witness :
    (program.runStep (program.runLoop LoopState.init ([payloadA] ++ [payloadB])) payloadA).decoded
        = (program.runLoop LoopState.init ([payloadA] ++ [payloadB])).decoded ++ [payloadA] ∧
    program.runStep (program.runLoop LoopState.init ([] ++ [payloadA])) payloadA
        = program.runLoop LoopState.init ([] ++ [payloadA]) :=
  ⟨(dedup_single_slot [payloadA] payloadB payloadA).2 (by decide) (by decide),
   (dedup_single_slot [] payloadA payloadA).1 rfl⟩

/-- C2: an unknown-identity payload does change state other than the dedup slot. After
`payloadC` (sensor 99999, not in the allowlist) no point is submitted, but the message variable
holds the reading of sensor 99999, and the next payload, which names sensor 9788 only, is
submitted as a Garage point with the temperature and humidity of sensor 99999. -/
theorem unknown_identity_reading_is_kept :
    idAllowlist 99999 = none ∧
    (program.runStep LoopState.init payloadC).written = [] ∧
    (program.runStep LoopState.init payloadC).message ≠ LoopState.init.message ∧
    (program.runStep LoopState.init payloadC).message.Temperature_C = f32 false 15 1 ∧
    program.pointsFor [payloadC] payloadIdOnly =
      [⟨"sample", [("location", "Garage"), ("AcuRiteId", stringOfInt 9788)],
        [("Temperature", f32 false 15 1), ("Humidity", f32 false 55 1)], Time.zero⟩] := by
  decide

/-- C3: when the loop decodes a payload into a reading `m` whose identity is a key of
`idAllowlist`, it submits one point, whose `location` tag is the allowlist's location for that
identity and whose `Temperature` and `Humidity` fields are the reading's `Temperature_C` and
`Humidity`. -/
theorem accepted_point_location_and_fields (s : LoopState) (p : Bytes) (m : AcuriteMessage)
    (loc : String) (hlive : s.panicked = none) (hnew : s.prevPayload ≠ p)
    (hdec : jsonUnmarshal p s.message = .ok m) (hid : idAllowlist m.Id = some loc) :
    (program.runStep s p).written = s.written ++ [program.buildPoint m loc] ∧
    (program.buildPoint m loc).tag "location" = some loc ∧
    (program.buildPoint m loc).field "Temperature" = some m.Temperature_C ∧
    (program.buildPoint m loc).field "Humidity" = some m.Humidity := by
  refine ⟨?_, ?_, ?_, ?_⟩
  · rw [runStep_of_ok s p m hlive hnew hdec, hid]
  · simp [program.buildPoint, Point.tag, Point.AddTag, Point.AddField, Point.SetTime,
      NewPointWithMeasurement, setOrAppend]
  · simp [program.buildPoint, Point.field, Point.AddTag, Point.AddField, Point.SetTime,
      NewPointWithMeasurement, setOrAppend]
  · have hne : ("Temperature" == "Humidity") = false := by decide
    simp [program.buildPoint, Point.field, Point.AddTag, Point.AddField, Point.SetTime,
      NewPointWithMeasurement, setOrAppend, hne]

/-- C3, at a concrete input: the first payload of a run, from sensor 9788. -/
theorem accepted_point_location_and_fields_witness :
    (program.runStep LoopState.init payloadA).written
      = LoopState.init.written ++ [program.buildPoint messageA "Garage"] ∧
    (program.buildPoint messageA "Garage").tag "location" = some "Garage" ∧
    (program.buildPoint messageA "Garage").field "Temperature" = some messageA.Temperature_C ∧
    (program.buildPoint messageA "Garage").field "Humidity" = some messageA.Humidity :=
  accepted_point_location_and_fields LoopState.init payloadA messageA "Garage" rfl
    (by decide) (by decide) (by decide)

/-- C4: the timestamp of the submitted point is not the time parsed from the payload. The
time field of `payloadA` is well formed and parses to 2021-12-31 08:00:14, `UnmarshalJSON`
returns no error for it, and the point submitted for `payloadA` carries the zero time
0001-01-01 00:00:00. -/
theorem point_timestamp_is_zero_time :
    timeParse (utf8 "2021-12-31 08:00:14") = some timeA ∧
    CustomTime.UnmarshalJSON Time.zero (utf8 "\"2021-12-31 08:00:14\"") = false ∧
    (program.pointsFor [] payloadA).map Point.timestamp = [Time.zero] ∧
    Time.zero ≠ timeA := by
  decide

/-- C5, refuted: after the malformed payloads `payloadGarbage` (not JSON) and `payloadBadTime`
(a time in another format) the loop has panicked, and the well-formed `payloadA` that follows
produces no point, although it produces one in a loop that had dropped the malformed
payload. -/
theorem decode_failure_not_survived :
    ¬ program.survivesDecodeFailure LoopState.init payloadGarbage [payloadA] ∧
    ¬ program.survivesDecodeFailure LoopState.init payloadBadTime [payloadA] ∧
    (program.runLoop LoopState.init [payloadGarbage, payloadA]).panicked = some .syntaxError ∧
    (program.runLoop LoopState.init [payloadBadTime, payloadA]).panicked = some .timeError ∧
    (program.runLoop LoopState.init [payloadGarbage, payloadA]).written = [] ∧
    (program.runLoop { LoopState.init with prevPayload := payloadGarbage } [payloadA]).written
      = [program.buildPoint messageA "Garage"] := by
  unfold program.survivesDecodeFailure
  decide

/-- C5, amended: a decode failure in the receive loop is fatal. When `json.Unmarshal` returns
an error for a payload the loop passes to it, `run` panics with that error: the payload
produces no point, and no later payload is passed to the decoder or produces a point. -/
theorem decode_failure_is_fatal (s : LoopState) (bad : Bytes) (e : JsonError)
    (rest : List Bytes) (hlive : s.panicked = none) (hnew : s.prevPayload ≠ bad)
    (hdec : jsonUnmarshal bad s.message = .error e) :
    (program.runLoop s (bad :: rest)).panicked = some e ∧
    (program.runLoop s (bad :: rest)).written = s.written ∧
    (program.runLoop s (bad :: rest)).decoded = s.decoded ++ [bad] := by
  rw [runLoop_cons, runStep_of_error s bad e hlive hnew hdec, runLoop_of_panicked _ rest e rfl]
  exact ⟨rfl, rfl, rfl⟩

/-- C5, amended, at a concrete input: a payload that is not JSON, then two good ones. -/
theorem decode_failure_is_fatal_witness :
    (program.runLoop LoopState.init (payloadGarbage :: [payloadA, payloadB])).panicked
      = some .syntaxError ∧
    (program.runLoop LoopState.init (payloadGarbage :: [payloadA, payloadB])).written
      = LoopState.init.written ∧
    (program.runLoop LoopState.init (payloadGarbage :: [payloadA, payloadB])).decoded
      = LoopState.init.decoded ++ [payloadGarbage] :=
  decode_failure_is_fatal LoopState.init payloadGarbage .syntaxError [payloadA, payloadB] rfl
    (by decide) (by decide)

/-- C6, refuted: the point submitted for `payloadA` has two tags, `location` and
`AcuRiteId`. -/
theorem point_has_second_tag :
    (program.pointsFor [] payloadA).map Point.tagKeys = [["location", "AcuRiteId"]] ∧
    ¬ ∀ pt ∈ program.pointsFor [] payloadA, pt.tagKeys = ["location"] := by
  decide

/-- C6, amended: for every accepted reading the tag set of the submitted point is exactly
`location` and `AcuRiteId`, and the `location` tag is the allowlist's location. -/
theorem accepted_point_tag_keys (s : LoopState) (p : Bytes) (m : AcuriteMessage)
    (loc : String) (hlive : s.panicked = none) (hnew : s.prevPayload ≠ p)
    (hdec : jsonUnmarshal p s.message = .ok m) (hid : idAllowlist m.Id = some loc) :
    ∃ pt, (program.runStep s p).written = s.written ++ [pt] ∧
      pt.tagKeys = ["location", "AcuRiteId"] ∧ pt.tag "location" = some loc := by
  refine ⟨program.buildPoint m loc, ?_, ?_, ?_⟩
  · rw [runStep_of_ok s p m hlive hnew hdec, hid]
  · have hne : ("location" == "AcuRiteId") = false := by decide
    simp [program.buildPoint, Point.tagKeys, Point.AddTag, Point.AddField, Point.SetTime,
      NewPointWithMeasurement, setOrAppend, hne]
  · simp [program.buildPoint, Point.tag, Point.AddTag, Point.AddField, Point.SetTime,
      NewPointWithMeasurement, setOrAppend]

/-- C6, amended, at a concrete input: `payloadB` arriving after `payloadA`. -/
theorem accepted_point_tag_keys_witness :
    ∃ pt, (program.runStep (program.runStep LoopState.init payloadA) payloadB).written
        = (program.runStep LoopState.init payloadA).written ++ [pt] ∧
      pt.tagKeys = ["location", "AcuRiteId"] ∧ pt.tag "location" = some "Garage" :=
  accepted_point_tag_keys (program.runStep LoopState.init payloadA) payloadB
    { messageA with Temperature_C := f32 false 21 1 } "Garage" (by decide) (by decide)
    (by decide) (by decide)

/-- C7: the round trip loses the time. `String` and `MarshalJSON` encode 2021-12-31 08:00:14
as the text `2021-12-31 08:00:14`; `UnmarshalJSON` on that text returns no error, but the
variable it is called on keeps its value (here the zero time), and a message decoded from a
payload with that time keeps the zero time in its `Time` field. -/
theorem roundtrip_loses_time :
    CustomTime.String timeA = utf8 "2021-12-31 08:00:14" ∧
    CustomTime.MarshalJSON timeA = utf8 "2021-12-31 08:00:14" ∧
    timeParse (trimQuotes (CustomTime.MarshalJSON timeA)) = some timeA ∧
    callUnmarshalJSON Time.zero (CustomTime.MarshalJSON timeA) = (Time.zero, false) ∧
    (jsonUnmarshal payloadA AcuriteMessage.zero).map AcuriteMessage.Time = .ok Time.zero ∧
    Time.zero ≠ timeA := by
  decide

/-- C8: `ToF(0.0) = 32.0` and `ToF(100.0) = 212.0` in float64 arithmetic, both when the product
is rounded before the sum and when the two operations are fused. -/
theorem ToF_reference_points :
    ToF (f64 0 1) = f64 32 1 ∧ ToF (f64 100 1) = f64 212 1 ∧
    ToF_fused (f64 0 1) = f64 32 1 ∧ ToF_fused (f64 100 1) = f64 212 1 := by
  decide

/-- C9: `Stop` does not unsubscribe from the topic `run` subscribed to. `run` subscribes to the
filter `rtl_433/#`; `Stop` passes the filter `rtl_433` to `Unsubscribe`, whether or not that
call fails. -/
theorem Stop_unsubscribes_other_topic :
    (program.runSetup false false).1.filterMap Call.subscribed = ["rtl_433/#"] ∧
    (∀ e, (program.Stop e).1.filterMap Call.unsubscribed = ["rtl_433"]) ∧
    (∀ e, ∀ t ∈ (program.Stop e).1.filterMap Call.unsubscribed,
      t ∉ (program.runSetup false false).1.filterMap Call.subscribed) := by
  decide

/-- C10: the outcome for a payload depends on earlier payloads. `payloadIdOnly` and
`payloadEmpty` are not suppressed after `payloadA`, after `payloadB` or at the start of a run.
`payloadIdOnly` is submitted with the temperature of whichever payload came before it
(20.5 after `payloadA`, 21 after `payloadB`, 0 at the start); `payloadEmpty` produces the Garage
point of `payloadA` once more after `payloadA` and no point at the start. -/
theorem stale_fields_inherited :
    (program.pointsFor [payloadA] payloadIdOnly).map (fun pt => pt.field "Temperature")
      = [some (f32 false 205 10)] ∧
    (program.pointsFor [payloadB] payloadIdOnly).map (fun pt => pt.field "Temperature")
      = [some (f32 false 21 1)] ∧
    (program.pointsFor [] payloadIdOnly).map (fun pt => pt.field "Temperature")
      = [some (f32 false 0 1)] ∧
    program.pointsFor [payloadA] payloadEmpty = [program.buildPoint messageA "Garage"] ∧
    program.pointsFor [] payloadEmpty = [] ∧
    payloadIdOnly ≠ payloadA ∧ payloadIdOnly ≠ payloadB ∧ payloadIdOnly ≠ [] ∧
    payloadEmpty ≠ payloadA ∧ payloadEmpty ≠ [] := by
  decide

end TempFilter
